import Mathlib

/-!
Shallow embedding of the Sa-Jin rules engine (sa_jin/pieces.py, sa_jin/board.py,
sa_jin/game.py) and proofs about its specification claims.

Python exceptions are modelled by `Except Err`; stateful operations return
`Except Err α × GameState` where the second component is the state as left
behind by the call (Python mutates `self` in place, so a raised exception can
leave behind a partially mutated state; the embedding keeps that behaviour).
Python `set` results are modelled as lists with membership semantics.
-/

namespace SaJin

/-- Error model: Python ValueError (the single validation category) versus
KeyError (raised by a failing dict lookup in Board.get_piece). -/
inductive Err where
  | value : String → Err
  | key : String → Err
deriving DecidableEq, Repr

instance {ε α : Type} [DecidableEq ε] [DecidableEq α] : DecidableEq (Except ε α) := fun x y =>
  match x, y with
  | .ok a, .ok b => if h : a = b then .isTrue (by rw [h]) else .isFalse (by simp [h])
  | .ok _, .error _ => .isFalse (by simp)
  | .error _, .ok _ => .isFalse (by simp)
  | .error e, .error f => if h : e = f then .isTrue (by rw [h]) else .isFalse (by simp [h])

def BOARD_SIZE : Nat := 8

/-- PlayerSide from pieces.py. -/
inductive PlayerSide where
  | SOUTH
  | NORTH
deriving DecidableEq, Repr

/-- forward_step property: rows increase for SOUTH, decrease for NORTH. -/
def PlayerSide.forward_step : PlayerSide → Int
  | .SOUTH => 1
  | .NORTH => -1

/-- home_rows property: range(0,4) for SOUTH, range(4,8) for NORTH. -/
def PlayerSide.home_rows : PlayerSide → List Nat
  | .SOUTH => List.range 4
  | .NORTH => (List.range 4).map (fun r => r + 4)

/-- enemy_home_row property. -/
def PlayerSide.enemy_home_row : PlayerSide → Nat
  | .SOUTH => BOARD_SIZE - 1
  | .NORTH => 0

/-- PieceType from pieces.py. -/
inductive PieceType where
  | TRIANGLE
  | RECTANGLE
  | SQUARE
deriving DecidableEq, Repr

/-- the .value string of the Python enum member. -/
def PieceType.value : PieceType → String
  | .TRIANGLE => "triangle"
  | .RECTANGLE => "rectangle"
  | .SQUARE => "square"

/-- Position dataclass: the Python constructor validates bounds, so in-range
positions carry Nat coordinates; arithmetic that may leave the board is done
in Int with explicit bounds checks, exactly where the source checks them. -/
structure Position where
  row : Nat
  col : Nat
deriving DecidableEq, Repr

/-- Position.algebraic: column letter (from 'A') followed by 1-based row. -/
def Position.algebraic (p : Position) : String :=
  String.mk [Char.ofNat (65 + p.col)] ++ toString (p.row + 1)

/-- decimal digit value of a character, if it is a digit. -/
def digitVal (c : Char) : Option Nat :=
  if 48 ≤ c.toNat ∧ c.toNat ≤ 57 then some (c.toNat - 48) else none

/-- parse a non-empty all-digit character list as a natural number. -/
def natOfDigits : List Char → Option Nat
  | [] => none
  | [c] => digitVal c
  | c :: rest =>
    match digitVal c, natOfDigits rest with
    | some d, some n => some (d * 10 ^ rest.length + n)
    | _, _ => none

/-- model of Python int(): an optional sign followed by decimal digits. -/
def intOfChars (cs : List Char) : Option Int :=
  match cs with
  | '-' :: rest => (natOfDigits rest).map (fun n => -(n : Int))
  | '+' :: rest => (natOfDigits rest).map (fun n => (n : Int))
  | _ => (natOfDigits cs).map (fun n => (n : Int))

/-- Position.from_algebraic: parse a column letter (case-insensitive) and a
1-based row number; int(name[1:]) is modelled by intOfChars. -/
def Position.from_algebraic (name : String) : Except Err Position :=
  match name.data with
  | c :: c2 :: rest =>
    let column : Int := (c.toUpper.toNat : Int) - 65
    match intOfChars (c2 :: rest) with
    | none => .error (.value "Invalid coordinate")
    | some n =>
      let row : Int := n - 1
      if 0 ≤ column ∧ column < 8 ∧ 0 ≤ row ∧ row < 8 then
        .ok ⟨row.toNat, column.toNat⟩
      else .error (.value "Coordinate is outside the board")
  | _ => .error (.value "Invalid coordinate")

/-- Position.translate: returns none when the translated square is off-board. -/
def Position.translate (p : Position) (d_row d_col : Int) : Option Position :=
  let new_row := (p.row : Int) + d_row
  let new_col := (p.col : Int) + d_col
  if 0 ≤ new_row ∧ new_row < 8 ∧ 0 ≤ new_col ∧ new_col < 8 then
    some ⟨new_row.toNat, new_col.toNat⟩
  else none

/-- Piece dataclass. -/
structure Piece where
  identifier : String
  owner : PlayerSide
  kind : PieceType
  position : Position
  strong : Bool
  alive : Bool
deriving DecidableEq, Repr

/-- row reached at projection distance d: position.row + distance * direction. -/
def rowAtD (p : Position) (dir : Int) (d : Nat) : Int := (p.row : Int) + (d : Int) * dir

/-- the column window scanned at distance d: start_col + offset for
offset in range(2*d+1), start_col = position.col - d. -/
def triWindow (p : Position) (d : Nat) : List Int :=
  (List.range (2 * d + 1)).map (fun (off : Nat) => (p.col : Int) - (d : Int) + (off : Int))

/-- body of the inner loop of triangle_attack_positions: bounds check, blocked
check, record the target, and block the column when the square is occupied. -/
def triStep (row : Nat) (occ : List (Nat × Nat)) (acc : List Position × List Nat)
    (colI : Int) : List Position × List Nat :=
  if 0 ≤ colI ∧ colI < 8 then
    let col := colI.toNat
    if col ∈ acc.2 then acc
    else
      let results := (⟨row, col⟩ : Position) :: acc.1
      if (row, col) ∈ occ then (results, col :: acc.2) else (results, acc.2)
  else acc

/-- outer loop of triangle_attack_positions over distances d, d+1, ... with the
given fuel (the source iterates range(1, BOARD_SIZE), i.e. 7 distances),
breaking when the projected row leaves the board. -/
def triangleAux (p : Position) (dir : Int) (occ : List (Nat × Nat)) :
    Nat → Nat → (List Position × List Nat) → (List Position × List Nat)
  | _, 0, acc => acc
  | d, fuel + 1, acc =>
    let rowI := rowAtD p dir d
    if 0 ≤ rowI ∧ rowI < 8 then
      triangleAux p dir occ (d + 1) fuel ((triWindow p d).foldl (triStep rowI.toNat occ) acc)
    else acc

/-- triangle_attack_positions from pieces.py. -/
def triangle_attack_positions (position : Position) (owner : PlayerSide)
    (occupied : List (Nat × Nat)) : List Position :=
  (triangleAux position owner.forward_step occupied 1 7 ([], [])).1

/-- one ray of rectangle_attack_positions, from step upward with the given
fuel (the source iterates range(1,8)), stopping at the board edge or
(inclusively) at the first occupied square. -/
def rayFrom (position : Position) (dir : Int) (occ : List (Nat × Nat)) :
    Nat → Nat → List Position
  | _, 0 => []
  | step, fuel + 1 =>
    let rowI := (position.row : Int) + dir * (step : Int)
    if 0 ≤ rowI ∧ rowI < 8 then
      let t : Position := ⟨rowI.toNat, position.col⟩
      if (rowI.toNat, position.col) ∈ occ then [t]
      else t :: rayFrom position dir occ (step + 1) fuel
    else []

/-- rectangle_attack_positions from pieces.py: forward ray plus backward ray. -/
def rectangle_attack_positions (position : Position) (owner : PlayerSide)
    (occupied : List (Nat × Nat)) : List Position :=
  rayFrom position owner.forward_step occupied 1 7 ++
    rayFrom position (-owner.forward_step) occupied 1 7

/-- square_attack_positions from pieces.py: all offsets with coordinates in
[-2,2], excluding the origin and offsets with |dRow|+|dCol| > 3, clipped to
the board; occupancy is ignored. -/
def square_attack_positions (position : Position) (owner : PlayerSide)
    (occupied : List (Nat × Nat)) : List Position :=
  (((List.range 5).flatMap (fun i =>
      (List.range 5).map (fun j => ((i : Int) - 2, (j : Int) - 2))))).filterMap
    (fun dd =>
      if dd.1 = 0 ∧ dd.2 = 0 then none
      else if 3 < dd.1.natAbs + dd.2.natAbs then none
      else position.translate dd.1 dd.2)

/-- attack_positions_for dispatches on the piece kind. -/
def attack_positions_for (piece : Piece) (occupied : List (Nat × Nat)) : List Position :=
  match piece.kind with
  | .TRIANGLE => triangle_attack_positions piece.position piece.owner occupied
  | .RECTANGLE => rectangle_attack_positions piece.position piece.owner occupied
  | .SQUARE => square_attack_positions piece.position piece.owner occupied

/-- iter_half_board: all positions of the side's home rows, row-major. -/
def iter_half_board (side : PlayerSide) : List Position :=
  side.home_rows.flatMap (fun row => (List.range 8).map (fun col => ⟨row, col⟩))

/-- Board from board.py: the dict of pieces keyed by identifier is modelled as
an insertion-ordered list (Python dicts preserve insertion order). -/
structure Board where
  pieces : List Piece
deriving DecidableEq, Repr

/-- alive_pieces accessor. -/
def Board.alive_pieces (b : Board) : List Piece := b.pieces.filter (fun p => p.alive)

/-- dict lookup by identifier (first match; identifiers are unique in the
source dict). -/
def Board.pieceWithId (b : Board) (id : String) : Option Piece :=
  b.pieces.find? (fun p => p.identifier == id)

/-- Board.get_piece: a missing identifier raises KeyError. -/
def Board.get_piece (b : Board) (id : String) : Except Err Piece :=
  match b.pieceWithId id with
  | some p => .ok p
  | none => .error (.key id)

/-- Board.piece_at: the alive piece on the square, if any. -/
def Board.piece_at (b : Board) (pos : Position) : Option Piece :=
  b.alive_pieces.find? (fun p => p.position == pos)

/-- Board.is_occupied. -/
def Board.is_occupied (b : Board) (pos : Position) : Bool := (b.piece_at pos).isSome

/-- Board.occupied_coordinates (a Python set; list membership models it). -/
def Board.occupied_coordinates (b : Board) : List (Nat × Nat) :=
  b.alive_pieces.map (fun p => (p.position.row, p.position.col))

/-- in-place mutation of the piece object with the given identifier. -/
def Board.update (b : Board) (id : String) (f : Piece → Piece) : Board :=
  ⟨b.pieces.map (fun p => if p.identifier == id then f p else p)⟩

/-- Board.add_piece: duplicate identifier or occupied square fail. -/
def Board.add_piece (b : Board) (piece : Piece) : Except Err Board :=
  if b.pieces.any (fun p => p.identifier == piece.identifier) then
    .error (.value "Piece already exists")
  else if b.is_occupied piece.position then
    .error (.value "Square already occupied")
  else .ok ⟨b.pieces ++ [piece]⟩

/-- Board.move_piece: fails on a captured piece or occupied destination. -/
def Board.move_piece (b : Board) (id : String) (new_position : Position) : Except Err Board :=
  match b.get_piece id with
  | .error e => .error e
  | .ok piece =>
    if !piece.alive then .error (.value "Cannot move a captured piece")
    else if b.is_occupied new_position then .error (.value "Square already occupied")
    else .ok (b.update id (fun p => { p with position := new_position }))

/-- Board.remove_piece: sets alive := false. -/
def Board.remove_piece (b : Board) (id : String) : Except Err Board :=
  match b.get_piece id with
  | .error e => .error e
  | .ok _ => .ok (b.update id (fun p => { p with alive := false }))

/-- Board.resurrect_piece: fails when already alive or the square is occupied;
the piece returns alive and weak at the given position. -/
def Board.resurrect_piece (b : Board) (id : String) (position : Position) : Except Err Board :=
  match b.get_piece id with
  | .error e => .error e
  | .ok piece =>
    if piece.alive then .error (.value "Piece is already alive")
    else if b.is_occupied position then .error (.value "Square already occupied")
    else .ok (b.update id (fun p => { p with position := position, alive := true, strong := false }))

/-- Phase from game.py. -/
inductive Phase where
  | PLACEMENT
  | ASSIGNMENT
  | ACTIVE
  | GAME_OVER
deriving DecidableEq, Repr

/-- TurnResult dataclass. -/
structure TurnResult where
  captures : List Piece
  resurrected : Option Piece
  needs_resurrection : Bool
deriving DecidableEq, Repr

/-- GameState from game.py; the per-side dicts are modelled as one field per
side with accessor functions below. -/
structure GameState where
  board : Board
  starting_player : PlayerSide
  current_player : PlayerSide
  phase : Phase
  placements_S : List PieceType
  placements_N : List PieceType
  assigned_S : Bool
  assigned_N : Bool
  captures_S : Nat
  captures_N : Nat
  winner : Option PlayerSide
  awaiting_resurrection : Option Piece
deriving DecidableEq, Repr

/-- GameState.__init__. -/
def GameState.fresh (starting_player : PlayerSide) : GameState where
  board := ⟨[]⟩
  starting_player := starting_player
  current_player := starting_player
  phase := .PLACEMENT
  placements_S := [.TRIANGLE, .RECTANGLE, .SQUARE]
  placements_N := [.TRIANGLE, .RECTANGLE, .SQUARE]
  assigned_S := false
  assigned_N := false
  captures_S := 0
  captures_N := 0
  winner := none
  awaiting_resurrection := none

/-- GameState.other_player. -/
def other_player : PlayerSide → PlayerSide
  | .SOUTH => .NORTH
  | .NORTH => .SOUTH

/-- read _placements_remaining[side]. -/
def GameState.placementsRemaining (s : GameState) : PlayerSide → List PieceType
  | .SOUTH => s.placements_S
  | .NORTH => s.placements_N

/-- write _placements_remaining[side]. -/
def GameState.setPlacements (s : GameState) (side : PlayerSide) (l : List PieceType) : GameState :=
  match side with
  | .SOUTH => { s with placements_S := l }
  | .NORTH => { s with placements_N := l }

/-- read _initial_strength_assigned[side]. -/
def GameState.assignedOf (s : GameState) : PlayerSide → Bool
  | .SOUTH => s.assigned_S
  | .NORTH => s.assigned_N

/-- write _initial_strength_assigned[side]. -/
def GameState.setAssigned (s : GameState) (side : PlayerSide) (b : Bool) : GameState :=
  match side with
  | .SOUTH => { s with assigned_S := b }
  | .NORTH => { s with assigned_N := b }

/-- read _captures[side]. -/
def GameState.capturesOf (s : GameState) : PlayerSide → Nat
  | .SOUTH => s.captures_S
  | .NORTH => s.captures_N

/-- write _captures[side]. -/
def GameState.setCaptures (s : GameState) (side : PlayerSide) (n : Nat) : GameState :=
  match side with
  | .SOUTH => { s with captures_S := n }
  | .NORTH => { s with captures_N := n }

/-- GameState._validate_alignment: no alive piece may share a row or column. -/
def GameState.validate_alignment (s : GameState) (position : Position) : Except Err Unit :=
  if s.board.alive_pieces.any
      (fun p => p.position.row == position.row || p.position.col == position.col) then
    .error (.value "Counters cannot share the same row or column during placement")
  else .ok ()

/-- GameState._validate_half. -/
def GameState.validate_half (side : PlayerSide) (position : Position) : Except Err Unit :=
  if position.row ∈ side.home_rows then .ok ()
  else .error (.value "Counter must be placed on your half of the board")

/-- GameState._identifier_for. -/
def identifier_for (side : PlayerSide) (kind : PieceType) : String :=
  (match side with | .SOUTH => "S" | .NORTH => "N") ++ "_" ++ kind.value

/-- GameState._pieces_for_side: alive pieces owned by the side. -/
def GameState.pieces_for_side (s : GameState) (side : PlayerSide) : List Piece :=
  s.board.alive_pieces.filter (fun p => p.owner == side)

/-- GameState._enforce_strength_requirements. -/
def GameState.enforce_strength_requirements (s : GameState) (side : PlayerSide) : Except Err Unit :=
  let alive := s.pieces_for_side side
  let strong_count := (alive.filter (fun p => p.strong)).length
  let required := min alive.length 2
  if strong_count < required then
    .error (.value "At least two counters must be on their strong side")
  else .ok ()

/-- GameState.place_piece: all validation precedes the board mutation; on
success the remaining-placement list and turn order are updated. -/
def GameState.place_piece (s : GameState) (side : PlayerSide) (kind : PieceType)
    (position : Position) : Except Err Piece × GameState :=
  if s.phase ≠ Phase.PLACEMENT then
    (.error (.value "Pieces can only be placed during the placement phase"), s)
  else if side ≠ s.current_player then
    (.error (.value "It is not this player's placement turn"), s)
  else if kind ∉ s.placementsRemaining side then
    (.error (.value "This piece has already been placed"), s)
  else match GameState.validate_half side position with
  | .error e => (.error e, s)
  | .ok _ =>
    match s.validate_alignment position with
    | .error e => (.error e, s)
    | .ok _ =>
      let identifier := identifier_for side kind
      let piece : Piece := ⟨identifier, side, kind, position, false, true⟩
      match s.board.add_piece piece with
      | .error e => (.error e, s)
      | .ok b =>
        let s1 := { s with board := b }
        let s2 := s1.setPlacements side ((s1.placementsRemaining side).erase kind)
        let other := other_player side
        let s3 :=
          if s2.placementsRemaining other ≠ [] then { s2 with current_player := other }
          else if s2.placementsRemaining side ≠ [] then { s2 with current_player := side }
          else { s2 with phase := Phase.ASSIGNMENT, current_player := side }
        (.ok piece, s3)

/-- GameState.assign_initial_strengths: set(strong_identifiers) is modelled
by dedup; each alive piece of the side becomes strong iff its identifier is
in the set. -/
def GameState.assign_initial_strengths (s : GameState) (side : PlayerSide)
    (strong_identifiers : List String) : Except Err Unit × GameState :=
  if s.phase ≠ Phase.ASSIGNMENT then
    (.error (.value "Initial strengths can only be assigned after placement"), s)
  else if s.assignedOf side then
    (.error (.value "This player has already assigned strengths"), s)
  else if (s.pieces_for_side side).length ≠ 3 then
    (.error (.value "All three counters must be on the board to assign strength"), s)
  else
    let strong_set := strong_identifiers.dedup
    if strong_set.length ≠ 2 then
      (.error (.value "Exactly two counters must be designated strong"), s)
    else
      let b : Board := ⟨s.board.pieces.map (fun p =>
        if p.alive && p.owner == side then
          { p with strong := decide (p.identifier ∈ strong_set) }
        else p)⟩
      let s1 := ({ s with board := b }).setAssigned side true
      let s2 :=
        if s1.assigned_S && s1.assigned_N then
          { s1 with phase := Phase.ACTIVE, current_player := s1.starting_player }
        else s1
      (.ok (), s2)

/-- GameState._validate_move: pure checks, no mutation. -/
def GameState.validate_move (s : GameState) (piece : Piece) (destination : Position) :
    Except Err Unit :=
  if !piece.alive then .error (.value "Cannot move a captured counter")
  else if s.board.is_occupied destination then .error (.value "Destination square is occupied")
  else
    let d_row := ((piece.position.row : Int) - (destination.row : Int)).natAbs
    let d_col := ((piece.position.col : Int) - (destination.col : Int)).natAbs
    if d_row = 0 ∧ d_col = 0 then .error (.value "A counter must move at least one square")
    else if d_row > 1 ∨ d_col > 1 then
      .error (.value "Counters move one square in any direction")
    else .ok ()

/-- GameState._swap_strengths: the identity and membership checks raise before
any mutation, but _enforce_strength_requirements raises after the two strong
flags have already been exchanged, so its failure state keeps the swap. -/
def GameState.swap_strengths (s : GameState) (side : PlayerSide)
    (swap_pair : Option (String × String)) : Except Err Unit × GameState :=
  match swap_pair with
  | none => (.ok (), s)
  | some (first_id, second_id) =>
    if first_id = second_id then (.error (.value "Cannot swap a counter with itself"), s)
    else
      let pieces := s.pieces_for_side side
      match pieces.find? (fun p => p.identifier == first_id),
          pieces.find? (fun p => p.identifier == second_id) with
      | some first, some second =>
        let b : Board := ⟨s.board.pieces.map (fun p =>
          if p.alive && p.identifier == first_id then { p with strong := second.strong }
          else if p.alive && p.identifier == second_id then { p with strong := first.strong }
          else p)⟩
        let s1 := { s with board := b }
        match s1.enforce_strength_requirements side with
        | .error e => (.error e, s1)
        | .ok _ => (.ok (), s1)
      | _, _ => (.error (.value "Both counters in a swap must belong to the player"), s)

/-- pointwise value of the coverage dict built by _resolve_captures: the
number of the attacker's alive strong pieces whose attack set (computed
against the given pre-capture occupancy of s) contains the coordinate. -/
def coverageCount (s : GameState) (attacker : PlayerSide) (key : Nat × Nat) : Nat :=
  ((s.board.alive_pieces.filter (fun p => p.owner == attacker && p.strong)).filter
    (fun p => (attack_positions_for p s.board.occupied_coordinates).any
      (fun t => (t.row, t.col) == key))).length

/-- body of the second loop of _resolve_captures, processing one captured
piece: mark it not-strong, increment the attacker's counter, and if the
defender retains exactly 2 living pieces make both strong. -/
def procCaptured (attacker : PlayerSide) (st : GameState) (c : Piece) : GameState :=
  let st1 := { st with board := st.board.update c.identifier (fun q => { q with strong := false }) }
  let st2 := st1.setCaptures attacker (st1.capturesOf attacker + 1)
  let remaining := st2.pieces_for_side c.owner
  if remaining.length == 2 then
    let b2 := remaining.foldl
      (fun bb q => bb.update q.identifier (fun r => { r with strong := true })) st2.board
    { st2 with board := b2 }
  else st2

/-- GameState._resolve_captures: coverage and the captured set are computed
once against the pre-capture board; all qualifying pieces are removed, then
each is processed by procCaptured; finally the win condition is checked.
The returned list holds the captured pieces as the caller observes them
after the loop (alive=False, strong=False). -/
def GameState.resolve_captures (s : GameState) (attacker : PlayerSide) :
    List Piece × GameState :=
  let capturedPieces := s.board.alive_pieces.filter (fun p =>
    p.owner != attacker && p.strong &&
      decide (2 ≤ coverageCount s attacker (p.position.row, p.position.col)))
  let board1 := capturedPieces.foldl
    (fun bb c => bb.update c.identifier (fun q => { q with alive := false })) s.board
  let s1 := { s with board := board1 }
  let s2 := capturedPieces.foldl (procCaptured attacker) s1
  let ret := capturedPieces.map (fun c => { c with alive := false, strong := false })
  if capturedPieces ≠ [] ∧ 2 ≤ s2.capturesOf attacker then
    (ret, { s2 with phase := Phase.GAME_OVER, winner := some attacker })
  else (ret, s2)

/-- GameState._can_resurrect. -/
def GameState.can_resurrect (s : GameState) (side : PlayerSide) : Option Piece :=
  let lost := s.board.pieces.filter (fun p => p.owner == side && !p.alive)
  if lost.length ≠ 1 then none
  else
    let survivors := s.pieces_for_side side
    if survivors.length ≠ 2 then none
    else if survivors.all (fun p => p.position.row == side.enemy_home_row) then lost.head?
    else none

/-- GameState._validate_resurrection_position. -/
def GameState.validate_resurrection_position (s : GameState) (side : PlayerSide)
    (position : Position) : Except Err Unit :=
  match GameState.validate_half side position with
  | .error e => .error e
  | .ok _ =>
    if s.board.is_occupied position then
      .error (.value "Cannot resurrect onto an occupied square")
    else if s.board.alive_pieces.any
        (fun p => p.position.row == position.row || p.position.col == position.col) then
      .error (.value "Resurrected counter cannot align with another counter")
    else .ok ()

/-- Except success test. -/
def isOkE : Except Err α → Bool
  | .ok _ => true
  | .error _ => false

/-- Except failure test. -/
def isErrE : Except Err α → Bool
  | .ok _ => false
  | .error _ => true

/-- GameState.resurrection_candidate. -/
def GameState.resurrection_candidate (s : GameState) (side : PlayerSide) : Option Piece :=
  s.can_resurrect side

/-- GameState.available_resurrection_positions. -/
def GameState.available_resurrection_positions (s : GameState) (side : PlayerSide) :
    List Position :=
  match s.can_resurrect side with
  | none => []
  | some _ =>
    (iter_half_board side).filter (fun pos => isOkE (s.validate_resurrection_position side pos))

/-- GameState.take_turn: validation, the one-square move, the optional swap,
capture resolution, then the resurrection check. Failure after the move is
not rolled back (the second component carries the state as mutated so far). -/
def GameState.take_turn (s : GameState) (side : PlayerSide) (piece_id : String)
    (destination : Position) (swap_pair : Option (String × String))
    (resurrection_position : Option Position) : Except Err TurnResult × GameState :=
  if s.phase ≠ Phase.ACTIVE then
    (.error (.value "Cannot take a turn until the game has started"), s)
  else if s.awaiting_resurrection.isSome then
    (.error (.value "A resurrection must be completed before taking another turn"), s)
  else if side ≠ s.current_player then
    (.error (.value "It is not this player's turn"), s)
  else match s.board.get_piece piece_id with
  | .error e => (.error e, s)
  | .ok piece =>
    if piece.owner ≠ side then (.error (.value "You can only move your own counters"), s)
    else match s.validate_move piece destination with
    | .error e => (.error e, s)
    | .ok _ =>
      match s.board.move_piece piece.identifier destination with
      | .error e => (.error e, s)
      | .ok b1 =>
        let s1 := { s with board := b1 }
        let pr := s1.swap_strengths side swap_pair
        match pr.1 with
        | .error e => (.error e, pr.2)
        | .ok _ =>
          let s2 := pr.2
          let rc := s2.resolve_captures side
          let captures := rc.1
          let s3 := rc.2
          match s3.can_resurrect side with
          | some candidate =>
            match resurrection_position with
            | none =>
              (.ok ⟨captures, none, true⟩, { s3 with awaiting_resurrection := some candidate })
            | some rp =>
              match s3.validate_resurrection_position side rp with
              | .error e => (.error e, s3)
              | .ok _ =>
                match s3.board.resurrect_piece candidate.identifier rp with
                | .error e => (.error e, s3)
                | .ok b4 =>
                  let resurrected := b4.pieceWithId candidate.identifier
                  let s4 := { s3 with board := b4 }
                  let s5 :=
                    if s4.phase = Phase.ACTIVE then { s4 with current_player := other_player side }
                    else s4
                  (.ok ⟨captures, resurrected, false⟩, s5)
          | none =>
            match resurrection_position with
            | some _ =>
              (.error (.value "A resurrection was requested but no counter can return"), s3)
            | none =>
              let s5 :=
                if s3.phase = Phase.ACTIVE then { s3 with current_player := other_player side }
                else s3
              (.ok ⟨captures, none, false⟩, s5)

/-- GameState.complete_resurrection. -/
def GameState.complete_resurrection (s : GameState) (side : PlayerSide)
    (position : Position) : Except Err Piece × GameState :=
  match s.awaiting_resurrection with
  | none => (.error (.value "No resurrection is pending"), s)
  | some candidate =>
    if candidate.owner ≠ side then
      (.error (.value "It is not this player's resurrection to resolve"), s)
    else match s.validate_resurrection_position side position with
    | .error e => (.error e, s)
    | .ok _ =>
      match s.board.resurrect_piece candidate.identifier position with
      | .error e => (.error e, s)
      | .ok b =>
        match b.pieceWithId candidate.identifier with
        | none => (.error (.key candidate.identifier), { s with board := b })
        | some piece =>
          let s1 := { s with board := b, awaiting_resurrection := none }
          let s2 :=
            if s1.phase = Phase.ACTIVE then { s1 with current_player := other_player side }
            else s1
          (.ok piece, s2)

/-- GameState.legal_moves (query; used by presentation and the AI). -/
def GameState.legal_moves (s : GameState) (side : PlayerSide) : List (String × Position) :=
  (s.pieces_for_side side).flatMap (fun piece =>
    ([-1, 0, 1] : List Int).flatMap (fun d_row =>
      ([-1, 0, 1] : List Int).filterMap (fun d_col =>
        if d_row = 0 ∧ d_col = 0 then none
        else match piece.position.translate d_row d_col with
          | none => none
          | some target =>
            if s.board.is_occupied target then none
            else some (piece.identifier, target))))

/-!
Concrete states used by counterexamples and witnesses.
-/

/-- a full legal opening: six alternating placements on mutually unaligned
squares followed by both strength assignments; the game is then ACTIVE with
SOUTH to move. -/
def sBase : GameState :=
  let s0 := GameState.fresh .SOUTH
  let s1 := (s0.place_piece .SOUTH .TRIANGLE ⟨0, 0⟩).2
  let s2 := (s1.place_piece .NORTH .TRIANGLE ⟨7, 7⟩).2
  let s3 := (s2.place_piece .SOUTH .RECTANGLE ⟨1, 1⟩).2
  let s4 := (s3.place_piece .NORTH .RECTANGLE ⟨6, 6⟩).2
  let s5 := (s4.place_piece .SOUTH .SQUARE ⟨2, 2⟩).2
  let s6 := (s5.place_piece .NORTH .SQUARE ⟨5, 5⟩).2
  let s7 := (s6.assign_initial_strengths .SOUTH ["S_triangle", "S_rectangle"]).2
  (s7.assign_initial_strengths .NORTH ["N_triangle", "N_rectangle"]).2

/-- the placement-complete state before any assignment (same placements). -/
def sPlaced : GameState :=
  let s0 := GameState.fresh .SOUTH
  let s1 := (s0.place_piece .SOUTH .TRIANGLE ⟨0, 0⟩).2
  let s2 := (s1.place_piece .NORTH .TRIANGLE ⟨7, 7⟩).2
  let s3 := (s2.place_piece .SOUTH .RECTANGLE ⟨1, 1⟩).2
  let s4 := (s3.place_piece .NORTH .RECTANGLE ⟨6, 6⟩).2
  let s5 := (s4.place_piece .SOUTH .SQUARE ⟨2, 2⟩).2
  (s5.place_piece .NORTH .SQUARE ⟨5, 5⟩).2

/-- mid-game position: each side has lost one piece (so, by the emergency
reinforcement rule, each side's two survivors are strong), SOUTH's survivors
are on or next to the far rank, and SOUTH is about to make its second
capture while being resurrection-eligible after the move. -/
def sC3 : GameState where
  board := ⟨[⟨"S_triangle", .SOUTH, .TRIANGLE, ⟨0, 0⟩, false, false⟩,
    ⟨"N_triangle", .NORTH, .TRIANGLE, ⟨1, 1⟩, false, false⟩,
    ⟨"S_rectangle", .SOUTH, .RECTANGLE, ⟨7, 3⟩, true, true⟩,
    ⟨"N_rectangle", .NORTH, .RECTANGLE, ⟨6, 3⟩, true, true⟩,
    ⟨"S_square", .SOUTH, .SQUARE, ⟨6, 5⟩, true, true⟩,
    ⟨"N_square", .NORTH, .SQUARE, ⟨2, 6⟩, true, true⟩]⟩
  starting_player := .SOUTH
  current_player := .SOUTH
  phase := .ACTIVE
  placements_S := []
  placements_N := []
  assigned_S := true
  assigned_N := true
  captures_S := 1
  captures_N := 1
  winner := none
  awaiting_resurrection := none

/-- mid-game position where SOUTH is resurrection-eligible after moving
S_square to (7,3) and no capture occurs. -/
def sC10 : GameState where
  board := ⟨[⟨"S_triangle", .SOUTH, .TRIANGLE, ⟨0, 0⟩, false, false⟩,
    ⟨"N_triangle", .NORTH, .TRIANGLE, ⟨0, 0⟩, true, true⟩,
    ⟨"S_rectangle", .SOUTH, .RECTANGLE, ⟨7, 1⟩, true, true⟩,
    ⟨"N_rectangle", .NORTH, .RECTANGLE, ⟨1, 4⟩, true, true⟩,
    ⟨"S_square", .SOUTH, .SQUARE, ⟨6, 3⟩, true, true⟩,
    ⟨"N_square", .NORTH, .SQUARE, ⟨2, 6⟩, false, true⟩]⟩
  starting_player := .SOUTH
  current_player := .SOUTH
  phase := .ACTIVE
  placements_S := []
  placements_N := []
  assigned_S := true
  assigned_N := true
  captures_S := 0
  captures_N := 1
  winner := none
  awaiting_resurrection := none

/-!
C9. Round-trip of the algebraic notation.
-/

/-- C9: for every valid Position p (row and column in [0,7]),
from_algebraic (p.algebraic) returns p. -/
theorem c9_algebraic_round_trip :
    ∀ r : Nat, r < 8 → ∀ c : Nat, c < 8 →
      Position.from_algebraic (Position.algebraic ⟨r, c⟩) = .ok ⟨r, c⟩ := by
  decide

/-- witness for C9 at the concrete position (2,5). -/
theorem c9_algebraic_round_trip_witness :
    (2 : Nat) < 8 ∧ (5 : Nat) < 8 ∧
      Position.from_algebraic (Position.algebraic ⟨2, 5⟩) = .ok ⟨2, 5⟩ :=
  ⟨by decide, by decide, c9_algebraic_round_trip 2 (by decide) 5 (by decide)⟩

/-!
Result accessors and basic board lemmas.
-/

/-- needs_resurrection flag of a turn outcome (false on failure). -/
def needsOf : Except Err TurnResult → Bool
  | .ok r => r.needs_resurrection
  | .error _ => false

/-- captures list of a turn outcome (empty on failure). -/
def capsOf : Except Err TurnResult → List Piece
  | .ok r => r.captures
  | .error _ => []

/-- resurrected piece of a turn outcome (none on failure). -/
def resOf : Except Err TurnResult → Option Piece
  | .ok r => r.resurrected
  | .error _ => none

theorem pieceWithId_update (b : Board) (id : String) (f : Piece → Piece)
    (hf : ∀ p, (f p).identifier = p.identifier) (i : String) :
    (b.update id f).pieceWithId i =
      if i = id then (b.pieceWithId i).map f else b.pieceWithId i := by
  obtain ⟨l⟩ := b
  simp only [Board.update, Board.pieceWithId]
  induction l with
  | nil => by_cases h : i = id <;> simp [h]
  | cons p l ih =>
    simp only [List.map_cons]
    by_cases hpid : p.identifier = id
    · by_cases hpi : p.identifier = i
      · have hii : i = id := hpi.symm.trans hpid
        rw [if_pos hii,
          @List.find?_cons_of_pos _ (fun q => q.identifier == i)
            (if (p.identifier == id) = true then f p else p)
            (List.map (fun q => if (q.identifier == id) = true then f q else q) l)
            (by simp [hpid, hf, hpi, hii]),
          @List.find?_cons_of_pos _ (fun q => q.identifier == i) p l (by simp [hpi])]
        simp [hpid]
      · have hii : ¬ id = i := fun hcontra => hpi (hpid.trans hcontra)
        rw [@List.find?_cons_of_neg _ (fun q => q.identifier == i)
            (if (p.identifier == id) = true then f p else p)
            (List.map (fun q => if (q.identifier == id) = true then f q else q) l)
            (by simp [hpid, hf, hpi, hii]),
          @List.find?_cons_of_neg _ (fun q => q.identifier == i) p l (by simp [hpi]), ih]
    · by_cases hpi : p.identifier = i
      · have hii : ¬ i = id := fun hcontra => hpid (hpi.trans hcontra)
        rw [if_neg hii,
          @List.find?_cons_of_pos _ (fun q => q.identifier == i)
            (if (p.identifier == id) = true then f p else p)
            (List.map (fun q => if (q.identifier == id) = true then f q else q) l)
            (by simp [hpid, hpi, hii]),
          @List.find?_cons_of_pos _ (fun q => q.identifier == i) p l (by simp [hpi])]
        simp [hpid]
      · rw [@List.find?_cons_of_neg _ (fun q => q.identifier == i)
            (if (p.identifier == id) = true then f p else p)
            (List.map (fun q => if (q.identifier == id) = true then f q else q) l)
            (by simp [hpid, hpi]),
          @List.find?_cons_of_neg _ (fun q => q.identifier == i) p l (by simp [hpi]), ih]

theorem pieceWithId_isSome_of_resurrect {b b' : Board} {id : String} {pos : Position}
    (h : b.resurrect_piece id pos = .ok b') (i : String) :
    (b'.pieceWithId i).isSome = (b.pieceWithId i).isSome := by
  unfold Board.resurrect_piece at h
  cases hg : b.get_piece id with
  | error e => rw [hg] at h; cases h
  | ok piece =>
    rw [hg] at h
    by_cases ha : piece.alive <;> simp [ha] at h
    by_cases ho : b.is_occupied pos <;> simp [ho] at h
    rw [← h, pieceWithId_update]
    · by_cases hi : i = id <;> simp [hi]
    · intro p; rfl

theorem get_piece_ok_isSome {b : Board} {id : String} {p : Piece}
    (h : b.get_piece id = .ok p) : (b.pieceWithId id).isSome = true := by
  unfold Board.get_piece at h
  cases hw : b.pieceWithId id <;> rw [hw] at h
  · cases h
  · rfl

/-!
C10. Supplying a resurrection position while ineligible fails rather than
being silently ignored: equivalently, whenever takeTurn succeeds with a
supplied resurrection position, the resurrection actually happened.
-/

set_option maxHeartbeats 1000000 in
/-- C10: an ACTIVE takeTurn that supplies a resurrection position either
fails (when after the move, swap and capture resolution the mover is not
resurrection-eligible the code raises) or performs the resurrection; a
successful call never silently ignores the supplied position. -/
theorem c10_resurrection_position_never_ignored (s : GameState) (side : PlayerSide)
    (pid : String) (dst : Position) (sw : Option (String × String)) (pos : Position)
    (r : TurnResult) (h : (s.take_turn side pid dst sw (some pos)).1 = .ok r) :
    r.resurrected.isSome = true := by
  unfold GameState.take_turn at h
  repeat' split at h
  all_goals try (exfalso; simp_all; done)
  rename_i o1 v1 e1 o2 v2 e2
  injection e1 with hv1
  injection e2 with hv2
  subst hv1
  subst hv2
  simp only at h
  repeat' split at h
  all_goals try (exfalso; simp_all; done)
  all_goals
    rename_i x4 b4 hres hph
  all_goals
    simp only [Except.ok.injEq] at h
  all_goals subst h
  all_goals simp only
  all_goals rw [pieceWithId_isSome_of_resurrect hres]
  all_goals unfold Board.resurrect_piece at hres
  all_goals repeat' split at hres
  all_goals try (exfalso; simp_all; done)
  all_goals exact get_piece_ok_isSome (by assumption)

/-- the turn outcome of the C10 witness call. -/
def tC10 : TurnResult :=
  ⟨[], some ⟨"S_triangle", .SOUTH, .TRIANGLE, ⟨3, 2⟩, false, true⟩, false⟩

/-- witness for C10: a successful call with a supplied resurrection position
really resurrects. -/
theorem c10_resurrection_position_never_ignored_witness :
    (sC10.take_turn .SOUTH "S_square" ⟨7, 3⟩ none (some ⟨3, 2⟩)).1 = .ok tC10 ∧
      tC10.resurrected.isSome = true :=
  ⟨by decide,
    c10_resurrection_position_never_ignored sC10 .SOUTH "S_square" ⟨7, 3⟩ none ⟨3, 2⟩ tC10
      (by decide)⟩

/-!
Counterexamples: concrete rejected or accepted calls contradicting C2, C3,
C4 and C8 as stated.
-/

/-- counterexample to C2: a takeTurn rejected inside the swap validation
(equal identifiers) is refused AFTER the one-square move has mutated the
board, so the rejected call does not leave the state as it was: the moved
piece now stands on the destination square. -/
theorem c2_counterexample :
    isErrE (sBase.take_turn .SOUTH "S_triangle" ⟨0, 1⟩
        (some ("S_triangle", "S_triangle")) none).1 = true ∧
      (sBase.take_turn .SOUTH "S_triangle" ⟨0, 1⟩
        (some ("S_triangle", "S_triangle")) none).2 ≠ sBase ∧
      ((sBase.take_turn .SOUTH "S_triangle" ⟨0, 1⟩
        (some ("S_triangle", "S_triangle")) none).2.board.pieceWithId "S_triangle").map
          Piece.position = some ⟨0, 1⟩ ∧
      (sBase.board.pieceWithId "S_triangle").map Piece.position = some ⟨0, 0⟩ := by
  refine ⟨by decide, by decide, by decide, by decide⟩

/-- counterexample to C3: a takeTurn that brings the mover to 2 captures sets
GAME_OVER with the mover as winner, but the resurrection check of the same
call is NOT pre-empted: the result reports a pending resurrection and one is
recorded in the state. -/
theorem c3_counterexample :
    (sC3.take_turn .SOUTH "S_square" ⟨7, 5⟩ none none).2.phase = Phase.GAME_OVER ∧
      (sC3.take_turn .SOUTH "S_square" ⟨7, 5⟩ none none).2.winner = some .SOUTH ∧
      (sC3.take_turn .SOUTH "S_square" ⟨7, 5⟩ none none).2.capturesOf .SOUTH = 2 ∧
      (capsOf (sC3.take_turn .SOUTH "S_square" ⟨7, 5⟩ none none).1).length = 1 ∧
      needsOf (sC3.take_turn .SOUTH "S_square" ⟨7, 5⟩ none none).1 = true ∧
      (sC3.take_turn .SOUTH "S_square" ⟨7, 5⟩ none none).2.awaiting_resurrection.isSome
        = true := by
  refine ⟨by decide, by decide, by decide, by decide, by decide, by decide⟩

/-- counterexample to C4: assign_initial_strengths accepts three identifiers
(two distinct) naming the OPPONENT's pieces; after both sides successfully
assign, SOUTH has zero strong pieces instead of exactly two. -/
theorem c4_counterexample :
    (sPlaced.assign_initial_strengths .SOUTH
        ["N_triangle", "N_triangle", "N_rectangle"]).1 = .ok () ∧
      (["N_triangle", "N_triangle", "N_rectangle"] : List String).length = 3 ∧
      (((sPlaced.assign_initial_strengths .SOUTH
          ["N_triangle", "N_triangle", "N_rectangle"]).2.assign_initial_strengths .NORTH
          ["N_triangle", "N_rectangle"]).1 = .ok ()) ∧
      (((sPlaced.assign_initial_strengths .SOUTH
          ["N_triangle", "N_triangle", "N_rectangle"]).2.assign_initial_strengths .NORTH
          ["N_triangle", "N_rectangle"]).2.pieces_for_side .SOUTH).filter
          (fun p => p.strong) = [] := by
  refine ⟨by decide, by decide, by decide, by decide⟩

/-- counterexample to C8: a takeTurn naming a nonexistent piece identifier
fails with the KeyError category of Board.get_piece, not with the single
ValueError validation category. -/
theorem c8_counterexample :
    (sBase.take_turn .SOUTH "bogus" ⟨0, 1⟩ none none).1 = .error (.key "bogus") ∧
      ∀ m : String, Err.key "bogus" ≠ Err.value m :=
  ⟨by decide, fun _ h => Err.noConfusion h⟩

theorem resurrect_pieceWithId_isSome {b b' : Board} {id : String} {pos : Position}
    (h : b.resurrect_piece id pos = .ok b') : (b'.pieceWithId id).isSome = true := by
  rw [pieceWithId_isSome_of_resurrect h]
  unfold Board.resurrect_piece at h
  repeat' split at h
  all_goals try (exfalso; simp_all; done)
  exact get_piece_ok_isSome (by assumption)

set_option maxHeartbeats 1000000 in
/-- C2 (amended): placePiece, assignInitialStrengths and completeResurrection
leave the state exactly as before on every rejected call, and so does a
takeTurn with no swap pair and no resurrection position (whose checks all
precede the move); the counterexample shows a takeTurn rejected inside the
swap validation keeps the already-performed move. -/
theorem c2_amended_no_mutation_on_prevalidation_failure :
    (∀ (s : GameState) (side : PlayerSide) (kind : PieceType) (pos : Position) (e : Err)
        (s' : GameState), s.place_piece side kind pos = (.error e, s') → s' = s) ∧
    (∀ (s : GameState) (side : PlayerSide) (ids : List String) (e : Err) (s' : GameState),
        s.assign_initial_strengths side ids = (.error e, s') → s' = s) ∧
    (∀ (s : GameState) (side : PlayerSide) (pos : Position) (e : Err) (s' : GameState),
        s.complete_resurrection side pos = (.error e, s') → s' = s) ∧
    (∀ (s : GameState) (side : PlayerSide) (pid : String) (dst : Position) (e : Err)
        (s' : GameState), s.take_turn side pid dst none none = (.error e, s') → s' = s) := by
  refine ⟨?_, ?_, ?_, ?_⟩
  · intro s side kind pos e s' h
    unfold GameState.place_piece at h
    repeat' split at h
    all_goals try (exfalso; simp_all; done)
    all_goals try (simp only at h)
    all_goals repeat' split at h
    all_goals try (exfalso; simp_all; done)
    all_goals (injection h with h1 h2; first
      | exact h2.symm
      | exact Except.noConfusion h1
      | (exfalso; have hx := resurrect_pieceWithId_isSome (by assumption); simp_all))
  · intro s side ids e s' h
    unfold GameState.assign_initial_strengths at h
    repeat' split at h
    all_goals try (exfalso; simp_all; done)
    all_goals try (simp only at h)
    all_goals repeat' split at h
    all_goals try (exfalso; simp_all; done)
    all_goals (injection h with h1 h2; first
      | exact h2.symm
      | exact Except.noConfusion h1
      | (exfalso; have hx := resurrect_pieceWithId_isSome (by assumption); simp_all))
  · intro s side pos e s' h
    unfold GameState.complete_resurrection at h
    repeat' split at h
    all_goals try (exfalso; simp_all; done)
    all_goals try (simp only at h)
    all_goals repeat' split at h
    all_goals try (exfalso; simp_all; done)
    all_goals (injection h with h1 h2; first
      | exact h2.symm
      | exact Except.noConfusion h1
      | (exfalso; have hx := resurrect_pieceWithId_isSome (by assumption); simp_all))
  · intro s side pid dst e s' h
    unfold GameState.take_turn at h
    repeat' split at h
    all_goals try (exfalso; simp_all; done)
    all_goals try (unfold GameState.swap_strengths at *)
    all_goals try (exfalso; simp_all; done)
    all_goals try (simp only at h)
    all_goals repeat' split at h
    all_goals try (exfalso; simp_all; done)
    all_goals (injection h with h1 h2; first
      | exact h2.symm
      | exact Except.noConfusion h1
      | (exfalso; have hx := resurrect_pieceWithId_isSome (by assumption); simp_all))

/-- witness for the amended C2: a placement by the wrong player is rejected
and leaves the fresh state unchanged. -/
theorem c2_amended_no_mutation_on_prevalidation_failure_witness :
    (GameState.fresh .SOUTH).place_piece .NORTH .TRIANGLE ⟨7, 7⟩ =
      (.error (.value "It is not this player's placement turn"), GameState.fresh .SOUTH) ∧
      ((GameState.fresh .SOUTH).place_piece .NORTH .TRIANGLE ⟨7, 7⟩).2 = GameState.fresh .SOUTH :=
  ⟨by decide,
    c2_amended_no_mutation_on_prevalidation_failure.1 (GameState.fresh .SOUTH) .NORTH .TRIANGLE
      ⟨7, 7⟩ (.value "It is not this player's placement turn")
      ((GameState.fresh .SOUTH).place_piece .NORTH .TRIANGLE ⟨7, 7⟩).2 (by decide)⟩

theorem procCaptured_awaiting (atk : PlayerSide) (st : GameState) (c : Piece) :
    (procCaptured atk st c).awaiting_resurrection = st.awaiting_resurrection := by
  unfold procCaptured GameState.setCaptures GameState.capturesOf
  cases atk <;> dsimp only <;> split <;> rfl

theorem foldl_procCaptured_awaiting (atk : PlayerSide) (cs : List Piece) :
    ∀ st : GameState,
      (cs.foldl (procCaptured atk) st).awaiting_resurrection = st.awaiting_resurrection := by
  induction cs with
  | nil => intro st; rfl
  | cons c cs ih => intro st; rw [List.foldl_cons, ih, procCaptured_awaiting]

theorem resolve_captures_awaiting (s : GameState) (atk : PlayerSide) :
    (s.resolve_captures atk).2.awaiting_resurrection = s.awaiting_resurrection := by
  unfold GameState.resolve_captures
  dsimp only
  split
  · exact foldl_procCaptured_awaiting atk _ _
  · exact foldl_procCaptured_awaiting atk _ _

theorem swap_strengths_awaiting (s : GameState) (side : PlayerSide)
    (sw : Option (String × String)) :
    (s.swap_strengths side sw).2.awaiting_resurrection = s.awaiting_resurrection := by
  unfold GameState.swap_strengths
  repeat' (first | rfl | split | dsimp only)
  all_goals rfl

theorem resolve_captures_game_over {s : GameState} {atk : PlayerSide} {ret : List Piece}
    {s2 : GameState} (h : s.resolve_captures atk = (ret, s2)) (hne : ret ≠ [])
    (hcnt : 2 ≤ s2.capturesOf atk) :
    s2.phase = Phase.GAME_OVER ∧ s2.winner = some atk := by
  unfold GameState.resolve_captures at h
  simp only at h
  split at h
  · injection h with h1 h2
    subst h2
    exact ⟨rfl, rfl⟩
  · rename_i hcond
    injection h with h1 h2
    exfalso
    apply hcond
    constructor
    · intro hcap
      apply hne
      rw [← h1, hcap]
      rfl
    · rw [h2]
      exact hcnt

theorem take_turn_not_active {s : GameState} (h : ¬ s.phase = Phase.ACTIVE)
    (side : PlayerSide) (pid : String) (dst : Position) (sw : Option (String × String))
    (rp : Option Position) :
    s.take_turn side pid dst sw rp =
      (.error (.value "Cannot take a turn until the game has started"), s) := by
  unfold GameState.take_turn
  rw [if_pos h]

set_option maxHeartbeats 1000000 in
/-- C3 (amended): a takeTurn whose capture resolution brings the mover's
count to 2 (with at least one capture in this call) ends in GAME_OVER with
the mover as winner and no further takeTurn succeeds; the resurrection check
is not pre-empted, but pending resurrection is reported in the result exactly
when it is recorded in the state. -/
theorem c3_amended_game_over_on_second_capture (s : GameState) (side : PlayerSide)
    (pid : String) (dst : Position) (sw : Option (String × String)) (rp : Option Position)
    (r : TurnResult) (s' : GameState)
    (h : s.take_turn side pid dst sw rp = (.ok r, s'))
    (hne : r.captures ≠ []) (hcnt : 2 ≤ s'.capturesOf side) :
    s'.phase = Phase.GAME_OVER ∧ s'.winner = some side ∧
      (r.needs_resurrection = true ↔ s'.awaiting_resurrection.isSome = true) ∧
      ∀ (side2 : PlayerSide) (pid2 : String) (dst2 : Position) (sw2 : Option (String × String))
        (rp2 : Option Position),
        s'.take_turn side2 pid2 dst2 sw2 rp2 =
          (.error (.value "Cannot take a turn until the game has started"), s') := by
  unfold GameState.take_turn at h
  repeat' split at h
  all_goals try (exfalso; simp_all; done)
  all_goals try (simp only at h)
  all_goals repeat' split at h
  all_goals try (exfalso; simp_all; done)
  all_goals (
    injection h with h1 h2;
    injection h1 with h1;
    subst h1;
    subst h2)
  all_goals (
    have hgo := resolve_captures_game_over (Prod.mk.eta).symm hne (by cases side <;> exact hcnt))
  all_goals refine ⟨hgo.1, hgo.2, ?_, fun side2 pid2 dst2 sw2 rp2 =>
    take_turn_not_active (by rw [hgo.1]; exact fun hfalse => Phase.noConfusion hfalse)
      side2 pid2 dst2 sw2 rp2⟩
  all_goals try (simp; done)
  all_goals (
    simp only [resolve_captures_awaiting, swap_strengths_awaiting];
    simp_all)


/-- the turn outcome of the C3 witness call. -/
def rC3 : TurnResult :=
  ⟨[⟨"N_rectangle", .NORTH, .RECTANGLE, ⟨6, 3⟩, false, false⟩], none, true⟩

/-- the post state of the C3 witness call. -/
def sC3after : GameState := (sC3.take_turn .SOUTH "S_square" ⟨7, 5⟩ none none).2

/-- witness for the amended C3 at the concrete winning call. -/
theorem c3_amended_game_over_on_second_capture_witness :
    (sC3.take_turn .SOUTH "S_square" ⟨7, 5⟩ none none = (.ok rC3, sC3after)) ∧
      rC3.captures ≠ [] ∧ 2 ≤ sC3after.capturesOf .SOUTH ∧
      (sC3after.phase = Phase.GAME_OVER ∧ sC3after.winner = some .SOUTH ∧
        (rC3.needs_resurrection = true ↔ sC3after.awaiting_resurrection.isSome = true) ∧
        ∀ (side2 : PlayerSide) (pid2 : String) (dst2 : Position)
          (sw2 : Option (String × String)) (rp2 : Option Position),
          sC3after.take_turn side2 pid2 dst2 sw2 rp2 =
            (.error (.value "Cannot take a turn until the game has started"), sC3after)) :=
  ⟨by decide, by decide, by decide,
    c3_amended_game_over_on_second_capture sC3 .SOUTH "S_square" ⟨7, 5⟩ none none rC3 sC3after
      (by decide) (by decide) (by decide)⟩

theorem length_filter_mem {A S : List String} (hA : A.Nodup) (hS : S.Nodup)
    (hsub : ∀ x ∈ S, x ∈ A) :
    (A.filter (fun a => decide (a ∈ S))).length = S.length := by
  have hperm : (A.filter (fun a => decide (a ∈ S))).Perm S := by
    rw [List.perm_ext_iff_of_nodup (hA.filter _) hS]
    intro a
    simp only [List.mem_filter, decide_eq_true_eq]
    exact ⟨fun ha => ha.2, fun ha => ⟨hsub a ha, ha⟩⟩
  exact hperm.length_eq

theorem alive_owner_filter_map (l : List Piece) (g : Piece → Piece)
    (hga : ∀ p, (g p).alive = p.alive) (hgo : ∀ p, (g p).owner = p.owner)
    (side : PlayerSide) :
    ((l.map g).filter (fun p => p.alive)).filter (fun p => p.owner == side) =
      ((l.filter (fun p => p.alive)).filter (fun p => p.owner == side)).map g := by
  rw [List.filter_map]
  have h1 : l.filter ((fun p => p.alive) ∘ g) = l.filter (fun p => p.alive) :=
    List.filter_congr (fun a _ => by simp [Function.comp, hga])
  rw [h1, List.filter_map]
  have h2 : (l.filter (fun p => p.alive)).filter ((fun p => p.owner == side) ∘ g)
      = (l.filter (fun p => p.alive)).filter (fun p => p.owner == side) :=
    List.filter_congr (fun a _ => by simp [Function.comp, hgo])
  rw [h2]

theorem assignG_alive (side : PlayerSide) (S : List String) (p : Piece) :
    ((fun p => if (p.alive && p.owner == side) = true then
      { p with strong := decide (p.identifier ∈ S) } else p) p).alive = p.alive := by
  by_cases hc : (p.alive && p.owner == side) = true <;> simp [hc]

theorem assignG_owner (side : PlayerSide) (S : List String) (p : Piece) :
    ((fun p => if (p.alive && p.owner == side) = true then
      { p with strong := decide (p.identifier ∈ S) } else p) p).owner = p.owner := by
  by_cases hc : (p.alive && p.owner == side) = true <;> simp [hc]

theorem setAssigned_board (s : GameState) (side : PlayerSide) (b : Bool) :
    (s.setAssigned side b).board = s.board := by
  cases side <;> rfl

set_option maxHeartbeats 1000000 in
/-- C4 (amended): assignInitialStrengths succeeds only in the ASSIGNMENT
phase, for a side not yet assigned, with all 3 pieces on the board and a list
of exactly 2 distinct identifiers; assigning twice fails; after success the
side's alive pieces are strong exactly when their identifier is in the
supplied set, so the side ends with exactly 2 strong pieces precisely when it
supplied identifiers of its own on-board pieces. -/
theorem c4_amended_assign_initial_strengths (s : GameState) (side : PlayerSide)
    (ids : List String) (u : Except Err Unit) (s' : GameState)
    (h : s.assign_initial_strengths side ids = (u, s')) :
    (u = .ok () →
      s.phase = Phase.ASSIGNMENT ∧ s.assignedOf side = false ∧
        (s.pieces_for_side side).length = 3 ∧ ids.dedup.length = 2 ∧
        (∀ p ∈ s'.board.pieces, p.alive = true → p.owner = side →
          (p.strong = true ↔ p.identifier ∈ ids.dedup)) ∧
        s'.assignedOf side = true ∧
        ((∀ i ∈ ids.dedup, i ∈ (s.pieces_for_side side).map Piece.identifier) →
          ((s.pieces_for_side side).map Piece.identifier).Nodup →
          ((s'.pieces_for_side side).filter (fun p => p.strong)).length = 2)) ∧
    (s.assignedOf side = true → u ≠ .ok ()) := by
  constructor
  · intro hu
    subst hu
    unfold GameState.assign_initial_strengths at h
    repeat' split at h
    all_goals try (exfalso; simp_all; done)
    all_goals try (simp only at h)
    all_goals repeat' split at h
    all_goals try (exfalso; simp_all; done)
    all_goals (injection h with h1 h2; subst h2)
    all_goals refine ⟨by simp_all, by simp_all, by simp_all, by simp_all, ?_, ?_, ?_⟩
    all_goals try (cases side <;> rfl)
    all_goals try (
      intro p hp ha ho;
      simp only [setAssigned_board] at hp;
      simp only [List.mem_map] at hp;
      obtain ⟨q, hq, rfl⟩ := hp;
      by_cases hqc : (q.alive && q.owner == side) = true;
      · rw [if_pos hqc]; simp;
      · rw [if_neg hqc] at ha ho; simp [ha, ho] at hqc)
    all_goals (
      intro hsub hnodup;
      simp only [setAssigned_board, GameState.pieces_for_side, Board.alive_pieces]
        at hsub hnodup ⊢;
      rw [alive_owner_filter_map s.board.pieces _ (assignG_alive side ids.dedup)
        (assignG_owner side ids.dedup) side];
      have hred : ((((s.board.pieces.filter (fun p => p.alive)).filter
            (fun p => p.owner == side)).map (fun p =>
              if (p.alive && p.owner == side) = true then
                { p with strong := decide (p.identifier ∈ ids.dedup) } else p)).filter
            (fun p => p.strong)).length
          = (((s.board.pieces.filter (fun p => p.alive)).filter
            (fun p => p.owner == side)).filter
            (fun p => decide (p.identifier ∈ ids.dedup))).length := by
        rw [List.filter_map, List.length_map]
        refine congrArg List.length (List.filter_congr (fun a ha => ?_))
        simp only [List.mem_filter] at ha
        simp [Function.comp, ha.1.2, ha.2]
      rw [hred];
      have hlen : (((s.board.pieces.filter (fun p => p.alive)).filter
            (fun p => p.owner == side)).filter
            (fun p => decide (p.identifier ∈ ids.dedup))).length
          = ((((s.board.pieces.filter (fun p => p.alive)).filter
            (fun p => p.owner == side)).map Piece.identifier).filter
            (fun a => decide (a ∈ ids.dedup))).length := by
        rw [List.filter_map, List.length_map]
        rfl
      rw [hlen, length_filter_mem hnodup (List.nodup_dedup ids) hsub]
      simp_all)
  · intro hassigned hu
    subst hu
    unfold GameState.assign_initial_strengths at h
    repeat' split at h
    all_goals simp_all


/-- the post state of the C4 witness call. -/
def sC4after : GameState :=
  (sPlaced.assign_initial_strengths .SOUTH ["S_triangle", "S_rectangle"]).2

/-- witness for the amended C4 at a concrete honest assignment. -/
theorem c4_amended_assign_initial_strengths_witness :
    (sPlaced.assign_initial_strengths .SOUTH ["S_triangle", "S_rectangle"] =
      (.ok (), sC4after)) ∧
      (((.ok ()) : Except Err Unit) = .ok () →
        sPlaced.phase = Phase.ASSIGNMENT ∧ sPlaced.assignedOf .SOUTH = false ∧
          (sPlaced.pieces_for_side .SOUTH).length = 3 ∧
          (["S_triangle", "S_rectangle"] : List String).dedup.length = 2 ∧
          (∀ p ∈ sC4after.board.pieces, p.alive = true → p.owner = .SOUTH →
            (p.strong = true ↔
              p.identifier ∈ (["S_triangle", "S_rectangle"] : List String).dedup)) ∧
          sC4after.assignedOf .SOUTH = true ∧
          ((∀ i ∈ (["S_triangle", "S_rectangle"] : List String).dedup,
              i ∈ (sPlaced.pieces_for_side .SOUTH).map Piece.identifier) →
            ((sPlaced.pieces_for_side .SOUTH).map Piece.identifier).Nodup →
            ((sC4after.pieces_for_side .SOUTH).filter (fun p => p.strong)).length = 2)) ∧
      (sPlaced.assignedOf .SOUTH = true → ((.ok ()) : Except Err Unit) ≠ .ok ()) :=
  ⟨by decide,
    (c4_amended_assign_initial_strengths sPlaced .SOUTH ["S_triangle", "S_rectangle"]
      (.ok ()) sC4after (by decide)).1,
    (c4_amended_assign_initial_strengths sPlaced .SOUTH ["S_triangle", "S_rectangle"]
      (.ok ()) sC4after (by decide)).2⟩

theorem get_piece_ok_id {b : Board} {id : String} {p : Piece}
    (h : b.get_piece id = .ok p) : p.identifier = id := by
  unfold Board.get_piece at h
  cases hw : b.pieceWithId id with
  | none => rw [hw] at h; cases h
  | some q =>
    rw [hw] at h
    injection h with h1
    subst h1
    unfold Board.pieceWithId at hw
    have := List.find?_some hw
    simpa using this

theorem get_piece_error_cases {b : Board} {id : String} {e : Err}
    (h : b.get_piece id = .error e) : e = .key id ∧ b.pieceWithId id = none := by
  unfold Board.get_piece at h
  cases hw : b.pieceWithId id with
  | none =>
    rw [hw] at h
    injection h with h1
    first
      | exact ⟨h1.symm, hw⟩
      | exact ⟨h1.symm, rfl⟩
  | some q => rw [hw] at h; cases h

theorem validate_half_error_value {side : PlayerSide} {pos : Position} {e : Err}
    (h : GameState.validate_half side pos = .error e) : ∃ m, e = .value m := by
  unfold GameState.validate_half at h
  split at h
  · cases h
  · injection h with h1; exact ⟨_, h1.symm⟩

theorem validate_move_error_value {s : GameState} {piece : Piece} {dst : Position} {e : Err}
    (h : s.validate_move piece dst = .error e) : ∃ m, e = .value m := by
  unfold GameState.validate_move at h
  repeat' split at h
  all_goals try (simp only at h)
  all_goals repeat' split at h
  all_goals first
    | (injection h with h1; exact ⟨_, h1.symm⟩)
    | exact Except.noConfusion h

theorem validate_resurrection_error_value {s : GameState} {side : PlayerSide} {pos : Position}
    {e : Err} (h : s.validate_resurrection_position side pos = .error e) :
    ∃ m, e = .value m := by
  unfold GameState.validate_resurrection_position at h
  repeat' split at h
  all_goals first
    | (injection h with h1; exact ⟨_, h1.symm⟩)
    | exact Except.noConfusion h
    | (injection h with h1; subst h1; exact validate_half_error_value (by assumption))

theorem enforce_error_value {s : GameState} {side : PlayerSide} {e : Err}
    (h : s.enforce_strength_requirements side = .error e) : ∃ m, e = .value m := by
  unfold GameState.enforce_strength_requirements at h
  simp only at h
  split at h
  · injection h with h1; exact ⟨_, h1.symm⟩
  · cases h

theorem swap_error_value {s : GameState} {side : PlayerSide} {sw : Option (String × String)}
    {e : Err} (h : (s.swap_strengths side sw).1 = .error e) : ∃ m, e = .value m := by
  unfold GameState.swap_strengths at h
  repeat' split at h
  all_goals try (simp only at h)
  all_goals repeat' split at h
  all_goals try (simp only at h)
  all_goals first
    | (injection h with h1; exact ⟨_, h1.symm⟩)
    | exact Except.noConfusion h
    | (injection h with h1; subst h1; exact enforce_error_value (by assumption))

theorem move_after_get {b : Board} {pid : String} {piece : Piece} {dst : Position} {e : Err}
    (hg : b.get_piece pid = .ok piece) (hm : b.move_piece piece.identifier dst = .error e) :
    ∃ m, e = .value m := by
  have hid : piece.identifier = pid := get_piece_ok_id hg
  rw [hid] at hm
  unfold Board.move_piece at hm
  rw [hg] at hm
  simp only at hm
  repeat' split at hm
  all_goals first
    | (injection hm with h1; exact ⟨_, h1.symm⟩)
    | exact Except.noConfusion hm

theorem can_resurrect_isSome {s : GameState} {side : PlayerSide} {c : Piece}
    (h : s.can_resurrect side = some c) : (s.board.pieceWithId c.identifier).isSome = true := by
  unfold GameState.can_resurrect at h
  simp only at h
  repeat' split at h
  all_goals try cases h
  have hmem : c ∈ s.board.pieces.filter (fun p => p.owner == side && !p.alive) := by
    cases hl : s.board.pieces.filter (fun p => p.owner == side && !p.alive) with
    | nil => rw [hl] at h; cases h
    | cons a l =>
      rw [hl] at h
      injection h with h2
      exact h2 ▸ List.mem_cons_self a l
  have hmem2 : c ∈ s.board.pieces := (List.mem_filter.mp hmem).1
  unfold Board.pieceWithId
  rw [List.find?_isSome]
  exact ⟨c, hmem2, by simp⟩

theorem resurrect_after_can {s3 : GameState} {side : PlayerSide} {c : Piece} {rp : Position}
    {e : Err} (hc : s3.can_resurrect side = some c)
    (hr : s3.board.resurrect_piece c.identifier rp = .error e) : ∃ m, e = .value m := by
  have hsome := can_resurrect_isSome hc
  unfold Board.resurrect_piece Board.get_piece at hr
  cases hw : s3.board.pieceWithId c.identifier with
  | none => rw [hw] at hsome; cases hsome
  | some q =>
    rw [hw] at hr
    simp only at hr
    repeat' split at hr
    all_goals first
      | (injection hr with h1; exact ⟨_, h1.symm⟩)
      | exact Except.noConfusion hr

theorem validate_alignment_error_value {s : GameState} {pos : Position} {e : Err}
    (h : s.validate_alignment pos = .error e) : ∃ m, e = .value m := by
  unfold GameState.validate_alignment at h
  split at h
  · injection h with h1; exact ⟨_, h1.symm⟩
  · cases h

theorem add_piece_error_value {b : Board} {piece : Piece} {e : Err}
    (h : b.add_piece piece = .error e) : ∃ m, e = .value m := by
  unfold Board.add_piece at h
  repeat' split at h
  all_goals first
    | (injection h with h1; exact ⟨_, h1.symm⟩)
    | exact Except.noConfusion h

theorem resurrect_error_cases {b : Board} {id : String} {pos : Position} {e : Err}
    (h : b.resurrect_piece id pos = .error e) :
    (∃ m, e = .value m) ∨ (e = .key id ∧ b.pieceWithId id = none) := by
  unfold Board.resurrect_piece Board.get_piece at h
  cases hw : b.pieceWithId id with
  | none =>
    rw [hw] at h
    simp only at h
    injection h with h1
    refine Or.inr ⟨h1.symm, ?_⟩
    first
      | exact hw
      | rfl
  | some q =>
    rw [hw] at h
    simp only at h
    repeat' split at h
    all_goals first
      | (injection h with h1; exact Or.inl ⟨_, h1.symm⟩)
      | exact Except.noConfusion h

set_option maxHeartbeats 1000000 in
/-- C8 (amended): every rejected call to placePiece or assignInitialStrengths
fails with the single ValueError validation category; takeTurn and
completeResurrection also do, except that a piece identifier absent from the
board registry surfaces as the KeyError of the underlying dict lookup in
Board.get_piece. -/
theorem c8_amended_error_categories :
    (∀ (s : GameState) (side : PlayerSide) (kind : PieceType) (pos : Position) (e : Err)
        (s' : GameState), s.place_piece side kind pos = (.error e, s') → ∃ m, e = .value m) ∧
    (∀ (s : GameState) (side : PlayerSide) (ids : List String) (e : Err) (s' : GameState),
        s.assign_initial_strengths side ids = (.error e, s') → ∃ m, e = .value m) ∧
    (∀ (s : GameState) (side : PlayerSide) (pid : String) (dst : Position)
        (sw : Option (String × String)) (rp : Option Position) (e : Err) (s' : GameState),
        s.take_turn side pid dst sw rp = (.error e, s') →
        (∃ m, e = .value m) ∨ (e = .key pid ∧ s.board.pieceWithId pid = none)) ∧
    (∀ (s : GameState) (side : PlayerSide) (pos : Position) (e : Err) (s' : GameState),
        s.complete_resurrection side pos = (.error e, s') →
        (∃ m, e = .value m) ∨ ∃ k, e = .key k ∧ s.board.pieceWithId k = none) := by
  refine ⟨?_, ?_, ?_, ?_⟩
  · intro s side kind pos e s' h
    unfold GameState.place_piece at h
    repeat' split at h
    all_goals try (simp only at h)
    all_goals repeat' split at h
    all_goals (injection h with h1 h2; first
      | (injection h1 with h1; exact ⟨_, h1.symm⟩)
      | exact Except.noConfusion h1
      | (injection h1 with h1; subst h1; first
          | exact validate_half_error_value (by assumption)
          | exact validate_alignment_error_value (by assumption)
          | exact add_piece_error_value (by assumption)))
  · intro s side ids e s' h
    unfold GameState.assign_initial_strengths at h
    repeat' split at h
    all_goals try (simp only at h)
    all_goals repeat' split at h
    all_goals (injection h with h1 h2; first
      | (injection h1 with h1; exact ⟨_, h1.symm⟩)
      | exact Except.noConfusion h1)
  · intro s side pid dst sw rp e s' h
    unfold GameState.take_turn at h
    repeat' split at h
    all_goals try (exfalso; simp_all; done)
    all_goals try (simp only at h)
    all_goals repeat' split at h
    all_goals try (exfalso; simp_all; done)
    all_goals (injection h with h1 h2)
    all_goals try (injection h1 with h1; subst h1)
    all_goals first
      | exact Except.noConfusion h1
      | exact Or.inl ⟨_, rfl⟩
      | exact Or.inr (get_piece_error_cases (by assumption))
      | exact Or.inl (validate_move_error_value (by assumption))
      | exact Or.inl (move_after_get (by assumption) (by assumption))
      | exact Or.inl (swap_error_value (by assumption))
      | exact Or.inl (validate_resurrection_error_value (by assumption))
      | exact Or.inl (resurrect_after_can (by assumption) (by assumption))
  · intro s side pos e s' h
    unfold GameState.complete_resurrection at h
    repeat' split at h
    all_goals try (simp only at h)
    all_goals repeat' split at h
    all_goals try (exfalso; have hx := resurrect_pieceWithId_isSome (by assumption); simp_all; done)
    all_goals (injection h with h1 h2)
    all_goals try (injection h1 with h1; subst h1)
    all_goals first
      | exact Except.noConfusion h1
      | exact Or.inl ⟨_, rfl⟩
      | exact Or.inl (validate_resurrection_error_value (by assumption))
      | exact (resurrect_error_cases (by assumption)).elim (fun hv => Or.inl hv)
          (fun hkn => Or.inr ⟨_, hkn.1, hkn.2⟩)


/-- witness for the amended C8: the unknown-identifier takeTurn falls in the
KeyError disjunct. -/
theorem c8_amended_error_categories_witness :
    (sBase.take_turn .SOUTH "bogus" ⟨0, 1⟩ none none = (.error (.key "bogus"), sBase)) ∧
      ((∃ m, (Err.key "bogus") = .value m) ∨
        ((Err.key "bogus") = .key "bogus" ∧ sBase.board.pieceWithId "bogus" = none)) :=
  ⟨by decide,
    c8_amended_error_categories.2.2.1 sBase .SOUTH "bogus" ⟨0, 1⟩ none none (.key "bogus")
      sBase (by decide)⟩

/-- observable projection of a piece: everything except the strong flag. -/
def pieceProj (p : Piece) : String × PlayerSide × PieceType × Position × Bool :=
  (p.identifier, p.owner, p.kind, p.position, p.alive)

theorem update_map_obs {β : Type} (obs : Piece → β) (b : Board) (id : String)
    (f : Piece → Piece) (hf : ∀ p, obs (f p) = obs p) :
    (b.update id f).pieces.map obs = b.pieces.map obs := by
  unfold Board.update
  rw [List.map_map]
  exact List.map_congr_left (fun a _ => by
    by_cases hc : a.identifier = id <;> simp [hc, hf])

theorem foldl_update_map_obs {β : Type} (obs : Piece → β)
    (f : Piece → Piece) (hf : ∀ p, obs (f p) = obs p) :
    ∀ (cs : List Piece) (b : Board),
      ((cs.foldl (fun bb c => bb.update c.identifier f) b).pieces.map obs) =
        b.pieces.map obs := by
  intro cs
  induction cs with
  | nil => intro b; rfl
  | cons c cs ih =>
    intro b
    rw [List.foldl_cons, ih, update_map_obs obs b c.identifier f hf]

theorem pieceWithId_of_mem_nodup {b : Board}
    (hn : (b.pieces.map (fun p => p.identifier)).Nodup) {p : Piece} (hp : p ∈ b.pieces) :
    b.pieceWithId p.identifier = some p := by
  unfold Board.pieceWithId
  obtain ⟨l⟩ := b
  simp only at hn hp ⊢
  induction l with
  | nil => cases hp
  | cons a l ih =>
    rcases List.mem_cons.mp hp with rfl | hpl
    · exact @List.find?_cons_of_pos _ (fun q => q.identifier == p.identifier) p l (by simp)
    · have ha : ¬ (a.identifier == p.identifier) = true := by
        simp only [List.map_cons, List.nodup_cons] at hn
        intro hcontra
        exact hn.1 (by
          rw [beq_iff_eq] at hcontra
          rw [hcontra]
          exact List.mem_map_of_mem (fun q => q.identifier) hpl)
      rw [@List.find?_cons_of_neg _ (fun q => q.identifier == p.identifier) a l ha]
      exact ih (by simp only [List.map_cons, List.nodup_cons] at hn; exact hn.2) hpl

theorem pieceWithId_foldl_update (f : Piece → Piece)
    (hfid : ∀ p, (f p).identifier = p.identifier) (hidem : ∀ p, f (f p) = f p) :
    ∀ (cs : List Piece) (b : Board) (i : String),
      ((cs.foldl (fun bb c => bb.update c.identifier f) b).pieceWithId i) =
        if i ∈ cs.map (fun c => c.identifier) then (b.pieceWithId i).map f
        else b.pieceWithId i := by
  intro cs
  induction cs with
  | nil => intro b i; simp
  | cons c cs ih =>
    intro b i
    rw [List.foldl_cons, ih, pieceWithId_update b c.identifier f hfid i]
    by_cases h1 : i = c.identifier <;> by_cases h2 : i ∈ cs.map (fun c => c.identifier)
    · have hff : f ∘ f = f := funext hidem
      rw [if_pos h2, if_pos h1, Option.map_map, hff,
        if_pos (show i ∈ List.map (fun c => c.identifier) (c :: cs) by
          rw [List.map_cons, h1]; exact List.mem_cons_self _ _)]
    · rw [if_neg h2, if_pos h1,
        if_pos (show i ∈ List.map (fun c => c.identifier) (c :: cs) by
          rw [List.map_cons, h1]; exact List.mem_cons_self _ _)]
    · rw [if_pos h2, if_neg h1,
        if_pos (show i ∈ List.map (fun c => c.identifier) (c :: cs) by
          rw [List.map_cons]; exact List.mem_cons_of_mem _ h2)]
    · rw [if_neg h2, if_neg h1,
        if_neg (show i ∉ List.map (fun c => c.identifier) (c :: cs) by
          rw [List.map_cons]
          intro hmem
          rcases List.mem_cons.mp hmem with hc | hc
          exacts [h1 hc, h2 hc])]

theorem setCaptures_board (s : GameState) (side : PlayerSide) (n : Nat) :
    (s.setCaptures side n).board = s.board := by
  cases side <;> rfl

theorem setCaptures_pieces (s : GameState) (side side2 : PlayerSide) (n : Nat) :
    (s.setCaptures side n).pieces_for_side side2 = s.pieces_for_side side2 := by
  cases side <;> rfl

theorem procCaptured_map_obs {β : Type} (obs : Piece → β)
    (hsf : ∀ p : Piece, obs { p with strong := false } = obs p)
    (hst : ∀ p : Piece, obs { p with strong := true } = obs p)
    (atk : PlayerSide) (st : GameState) (c : Piece) :
    (procCaptured atk st c).board.pieces.map obs = st.board.pieces.map obs := by
  unfold procCaptured
  simp only [setCaptures_board, setCaptures_pieces]
  split
  · simp only
    rw [foldl_update_map_obs obs _ hst, update_map_obs obs _ _ _ hsf]
  · simp only [setCaptures_board]
    rw [update_map_obs obs _ _ _ hsf]

theorem procCaptured_captures (atk : PlayerSide) (st : GameState) (c : Piece) :
    (procCaptured atk st c).capturesOf atk = st.capturesOf atk + 1 := by
  unfold procCaptured
  dsimp only
  split <;> (cases atk <;> rfl)

theorem foldl_procCaptured_captures (atk : PlayerSide) (cs : List Piece) :
    ∀ st : GameState,
      (cs.foldl (procCaptured atk) st).capturesOf atk = st.capturesOf atk + cs.length := by
  induction cs with
  | nil => intro st; rfl
  | cons c cs ih =>
    intro st
    rw [List.foldl_cons, ih, procCaptured_captures, List.length_cons]
    omega

theorem nodup_after_update (b : Board) (id : String) (f : Piece → Piece)
    (hfid : ∀ p, (f p).identifier = p.identifier)
    (hn : (b.pieces.map (fun p => p.identifier)).Nodup) :
    (((b.update id f).pieces.map (fun p => p.identifier))).Nodup := by
  rw [update_map_obs (fun p => p.identifier) b id f hfid]
  exact hn

theorem procCaptured_dead_entry (atk : PlayerSide) (st : GameState) (c : Piece) (i : String)
    (q : Piece) (hn : (st.board.pieces.map (fun p => p.identifier)).Nodup)
    (hq : st.board.pieceWithId i = some q) (hd : q.alive = false) :
    (procCaptured atk st c).board.pieceWithId i =
      some (if i = c.identifier then { q with strong := false } else q) := by
  have hupd : (st.board.update c.identifier (fun r => { r with strong := false })).pieceWithId i
      = some (if i = c.identifier then { q with strong := false } else q) := by
    rw [pieceWithId_update st.board c.identifier
      (fun r => { r with strong := false }) (fun p => rfl) i]
    by_cases hic : i = c.identifier
    · rw [if_pos hic, if_pos hic, hq]; rfl
    · rw [if_neg hic, if_neg hic, hq]
  have hnupd : (((st.board.update c.identifier
      (fun r => { r with strong := false })).pieces.map (fun p => p.identifier))).Nodup :=
    nodup_after_update _ _ _ (fun p => rfl) hn
  unfold procCaptured
  simp only [setCaptures_board, setCaptures_pieces]
  split
  · simp only [setCaptures_board]
    rw [pieceWithId_foldl_update (fun r => { r with strong := true })
      (fun p => rfl) (fun p => rfl)]
    rw [if_neg ?hnotmem]
    case hnotmem =>
      intro hmem
      rw [List.mem_map] at hmem
      obtain ⟨r, hr, hri⟩ := hmem
      have hrb : r ∈ (st.board.update c.identifier
          (fun r => { r with strong := false })).pieces := by
        have h1 := List.mem_filter.mp hr
        have h2 := List.mem_filter.mp h1.1
        exact h2.1
      have halive : r.alive = true := by
        have h1 := List.mem_filter.mp hr
        have h2 := List.mem_filter.mp h1.1
        exact h2.2
      have hri2 : r.identifier = i := hri
      have := pieceWithId_of_mem_nodup hnupd hrb
      rw [hri2, hupd] at this
      injection this with hthis
      rw [← hthis] at halive
      by_cases hic : i = c.identifier
      · rw [if_pos hic] at halive
        simp only at halive
        rw [hd] at halive
        cases halive
      · rw [if_neg hic] at halive
        rw [hd] at halive
        cases halive
    · exact hupd
  · simp only [setCaptures_board]
    exact hupd

theorem nodup_after_foldl_update (cs : List Piece) (b : Board) (f : Piece → Piece)
    (hfid : ∀ p, (f p).identifier = p.identifier)
    (hn : (b.pieces.map (fun p => p.identifier)).Nodup) :
    (((cs.foldl (fun bb c => bb.update c.identifier f) b).pieces.map
      (fun p => p.identifier))).Nodup := by
  rw [foldl_update_map_obs (fun p => p.identifier) f hfid]
  exact hn

theorem nodup_after_procCaptured (atk : PlayerSide) (st : GameState) (c : Piece)
    (hn : (st.board.pieces.map (fun p => p.identifier)).Nodup) :
    (((procCaptured atk st c).board.pieces.map (fun p => p.identifier))).Nodup := by
  rw [procCaptured_map_obs (fun p => p.identifier) (fun p => rfl) (fun p => rfl)]
  exact hn

theorem foldl_procCaptured_dead_entry (atk : PlayerSide) :
    ∀ (cs : List Piece) (st : GameState) (i : String) (q : Piece),
      (st.board.pieces.map (fun p => p.identifier)).Nodup →
      st.board.pieceWithId i = some q → q.alive = false →
      (cs.foldl (procCaptured atk) st).board.pieceWithId i =
        some (if i ∈ cs.map (fun c => c.identifier) then { q with strong := false }
          else q) := by
  intro cs
  induction cs with
  | nil =>
    intro st i q _ hq _
    simpa using hq
  | cons c cs ih =>
    intro st i q hn hq hd
    rw [List.foldl_cons]
    have hstep := procCaptured_dead_entry atk st c i q hn hq hd
    have hn2 := nodup_after_procCaptured atk st c hn
    by_cases hic : i = c.identifier
    · rw [if_pos hic] at hstep
      have hrec := ih (procCaptured atk st c) i { q with strong := false } hn2 hstep hd
      have hmem : i ∈ c.identifier :: List.map (fun c => c.identifier) cs := by
        rw [hic]; exact List.mem_cons_self _ _
      rw [hrec, List.map_cons]
      by_cases hm : i ∈ List.map (fun c => c.identifier) cs
      · rw [if_pos hm, if_pos hmem]
      · rw [if_neg hm, if_pos hmem]
    · rw [if_neg hic] at hstep
      have hrec := ih (procCaptured atk st c) i q hn2 hstep hd
      rw [hrec, List.map_cons]
      by_cases hm : i ∈ List.map (fun c => c.identifier) cs
      · rw [if_pos hm, if_pos (List.mem_cons_of_mem _ hm)]
      · rw [if_neg hm, if_neg (by
          intro hcontra
          rcases List.mem_cons.mp hcontra with h1 | h1
          exacts [hic h1, hm h1])]

theorem procCaptured_entry_strong (atk : PlayerSide) (st : GameState) (c : Piece)
    (i : String) (q : Piece) (hq : st.board.pieceWithId i = some q) :
    ∃ b : Bool, (procCaptured atk st c).board.pieceWithId i = some { q with strong := b } := by
  unfold procCaptured
  simp only [setCaptures_board, setCaptures_pieces]
  split
  · simp only [setCaptures_board]
    rw [pieceWithId_foldl_update (fun r => { r with strong := true })
      (fun p => rfl) (fun p => rfl),
      pieceWithId_update st.board c.identifier
        (fun r => { r with strong := false }) (fun p => rfl) i, hq]
    by_cases hic : i = c.identifier
    · rw [if_pos hic]
      split
      · exact ⟨true, rfl⟩
      · exact ⟨false, rfl⟩
    · rw [if_neg hic]
      split
      · exact ⟨true, rfl⟩
      · exact ⟨q.strong, rfl⟩
  · simp only [setCaptures_board]
    rw [pieceWithId_update st.board c.identifier
      (fun r => { r with strong := false }) (fun p => rfl) i, hq]
    by_cases hic : i = c.identifier
    · rw [if_pos hic]
      exact ⟨false, rfl⟩
    · rw [if_neg hic]
      exact ⟨q.strong, rfl⟩

theorem foldl_procCaptured_entry_strong (atk : PlayerSide) :
    ∀ (cs : List Piece) (st : GameState) (i : String) (q : Piece),
      st.board.pieceWithId i = some q →
      ∃ b : Bool, (cs.foldl (procCaptured atk) st).board.pieceWithId i =
        some { q with strong := b } := by
  intro cs
  induction cs with
  | nil =>
    intro st i q hq
    exact ⟨q.strong, by simpa using hq⟩
  | cons c cs ih =>
    intro st i q hq
    rw [List.foldl_cons]
    obtain ⟨b1, hb1⟩ := procCaptured_entry_strong atk st c i q hq
    obtain ⟨b2, hb2⟩ := ih (procCaptured atk st c) i { q with strong := b1 } hb1
    exact ⟨b2, hb2⟩

theorem procCaptured_captures_other (atk : PlayerSide) (st : GameState) (c : Piece) :
    (procCaptured atk st c).capturesOf (other_player atk) =
      st.capturesOf (other_player atk) := by
  unfold procCaptured
  dsimp only
  split <;> (cases atk <;> rfl)

theorem foldl_procCaptured_captures_other (atk : PlayerSide) (cs : List Piece) :
    ∀ st : GameState,
      (cs.foldl (procCaptured atk) st).capturesOf (other_player atk) =
        st.capturesOf (other_player atk) := by
  induction cs with
  | nil => intro st; rfl
  | cons c cs ih =>
    intro st
    rw [List.foldl_cons, ih, procCaptured_captures_other]

theorem foldl_procCaptured_map_obs {β : Type} (obs : Piece → β)
    (hsf : ∀ p : Piece, obs { p with strong := false } = obs p)
    (hst : ∀ p : Piece, obs { p with strong := true } = obs p)
    (atk : PlayerSide) (cs : List Piece) :
    ∀ st : GameState,
      (cs.foldl (procCaptured atk) st).board.pieces.map obs = st.board.pieces.map obs := by
  induction cs with
  | nil => intro st; rfl
  | cons c cs ih =>
    intro st
    rw [List.foldl_cons, ih, procCaptured_map_obs obs hsf hst]

theorem pieceWithId_mem {b : Board} {i : String} {p : Piece}
    (h : b.pieceWithId i = some p) : p ∈ b.pieces :=
  List.mem_of_find?_eq_some h

theorem mem_pieces_for_side {s : GameState} {side : PlayerSide} {p : Piece} :
    p ∈ s.pieces_for_side side ↔
      p ∈ s.board.pieces ∧ p.alive = true ∧ p.owner = side := by
  unfold GameState.pieces_for_side Board.alive_pieces
  simp only [List.mem_filter, beq_iff_eq]
  tauto

theorem other_of_ne {p atk : PlayerSide} (h : p ≠ atk) : p = other_player atk := by
  cases p <;> cases atk <;> first | rfl | exact absurd rfl h

theorem alive_side_length (side : PlayerSide) :
    ∀ l : List Piece,
      ((l.filter (fun p => p.alive)).filter (fun p => p.owner == side)).length =
        ((l.map (fun p => (p.alive, p.owner))).filter
          (fun x => x.1 && x.2 == side)).length := by
  intro l
  rw [List.filter_filter, List.filter_map, List.length_map]
  congr 1
  refine List.filter_congr (fun a _ => ?_)
  simp [Function.comp, Bool.and_comm]

theorem pieces_for_side_length_of_map_eq {s t : GameState} (side : PlayerSide)
    (h : s.board.pieces.map (fun p => (p.alive, p.owner)) =
      t.board.pieces.map (fun p => (p.alive, p.owner))) :
    (s.pieces_for_side side).length = (t.pieces_for_side side).length := by
  unfold GameState.pieces_for_side Board.alive_pieces
  rw [alive_side_length, alive_side_length, h]

theorem reinforce_entry (b : Board) (rem : List Piece)
    (hn : (b.pieces.map (fun p => p.identifier)).Nodup) (r : Piece)
    (hr : r ∈ rem) (hrb : r ∈ b.pieces) :
    (rem.foldl (fun bb q => bb.update q.identifier
        (fun x => { x with strong := true })) b).pieceWithId r.identifier =
      some { r with strong := true } := by
  rw [pieceWithId_foldl_update (fun x => { x with strong := true })
    (fun p => rfl) (fun p => rfl)]
  rw [if_pos (List.mem_map_of_mem _ hr), pieceWithId_of_mem_nodup hn hrb]
  rfl

theorem reinforce_skip (b : Board) (rem : List Piece) (i : String)
    (hni : i ∉ rem.map (fun c => c.identifier)) :
    (rem.foldl (fun bb q => bb.update q.identifier
        (fun x => { x with strong := true })) b).pieceWithId i = b.pieceWithId i := by
  rw [pieceWithId_foldl_update (fun x => { x with strong := true })
    (fun p => rfl) (fun p => rfl)]
  rw [if_neg hni]

theorem reinforce_all_strong (B : Board) (side : PlayerSide)
    (hnB : (B.pieces.map (fun p => p.identifier)).Nodup)
    (rem : List Piece)
    (hrem : ∀ r : Piece, r ∈ rem ↔ r ∈ B.pieces ∧ r.alive = true ∧ r.owner = side) :
    ∀ p : Piece, p ∈ (rem.foldl (fun bb q => bb.update q.identifier
        (fun x => { x with strong := true })) B).pieces →
      p.alive = true → p.owner = side → p.strong = true := by
  intro p hpb hpa hpo
  have hnR := nodup_after_foldl_update rem B
    (fun x => { x with strong := true }) (fun p => rfl) hnB
  have hpwi := pieceWithId_of_mem_nodup hnR hpb
  by_cases hm : p.identifier ∈ rem.map (fun c => c.identifier)
  · obtain ⟨r, hr, hri⟩ := List.mem_map.mp hm
    have hri2 : r.identifier = p.identifier := hri
    have h1 := reinforce_entry B rem hnB r hr ((hrem r).mp hr).1
    rw [hri2] at h1
    have h3 := Option.some.inj (h1.symm.trans hpwi)
    rw [← h3]
  · have h2 := reinforce_skip B rem p.identifier hm
    have hpB : p ∈ B.pieces := pieceWithId_mem (h2.symm.trans hpwi)
    exact absurd (List.mem_map_of_mem _ ((hrem p).mpr ⟨hpB, hpa, hpo⟩)) hm

theorem procCaptured_reinforce (atk : PlayerSide) (st : GameState) (c : Piece)
    (hn : (st.board.pieces.map (fun p => p.identifier)).Nodup) :
    ((procCaptured atk st c).pieces_for_side c.owner).length = 2 →
    ∀ p ∈ (procCaptured atk st c).pieces_for_side c.owner, p.strong = true := by
  unfold procCaptured
  simp only [setCaptures_board, setCaptures_pieces]
  split
  · intro hlen p hp
    obtain ⟨hpb, hpa, hpo⟩ := mem_pieces_for_side.mp hp
    have hnB : ((st.board.update c.identifier
        (fun q => { q with strong := false })).pieces.map (fun p => p.identifier)).Nodup :=
      nodup_after_update _ _ _ (fun p => rfl) hn
    exact reinforce_all_strong _ c.owner hnB _
      (fun r => mem_pieces_for_side) p hpb hpa hpo
  · rename_i hcond
    intro hlen
    rw [setCaptures_pieces] at hlen
    exact absurd (by simp [hlen]) hcond

/-- the list of pieces captured by _resolve_captures, read off the
pre-capture state: alive opposing strong pieces on a coordinate covered by
at least two of the attacker's alive strong pieces. -/
def resolveCaptured (s : GameState) (atk : PlayerSide) : List Piece :=
  s.board.alive_pieces.filter (fun p =>
    p.owner != atk && p.strong &&
      decide (2 ≤ coverageCount s atk (p.position.row, p.position.col)))

/-- the board after the removal loop of _resolve_captures. -/
def resolveKilledBoard (s : GameState) (atk : PlayerSide) : Board :=
  (resolveCaptured s atk).foldl
    (fun bb c => bb.update c.identifier (fun q => { q with alive := false })) s.board

/-- the state after the removal loop and the per-capture processing loop of
_resolve_captures, before the win-condition check. -/
def resolveCore (s : GameState) (atk : PlayerSide) : GameState :=
  (resolveCaptured s atk).foldl (procCaptured atk) { s with board := resolveKilledBoard s atk }

theorem resolve_captures_fst (s : GameState) (atk : PlayerSide) :
    (s.resolve_captures atk).1 =
      (resolveCaptured s atk).map (fun c => { c with alive := false, strong := false }) := by
  unfold GameState.resolve_captures resolveCaptured
  dsimp only
  split <;> rfl

theorem resolve_captures_board (s : GameState) (atk : PlayerSide) :
    ((s.resolve_captures atk).2).board = (resolveCore s atk).board := by
  unfold GameState.resolve_captures resolveCore resolveKilledBoard resolveCaptured
  dsimp only
  split <;> rfl

theorem resolve_captures_capturesOf (s : GameState) (atk : PlayerSide) (side : PlayerSide) :
    ((s.resolve_captures atk).2).capturesOf side = (resolveCore s atk).capturesOf side := by
  unfold GameState.resolve_captures resolveCore resolveKilledBoard resolveCaptured
  dsimp only
  split
  · cases side <;> rfl
  · rfl

theorem mem_resolveCaptured {s : GameState} {atk : PlayerSide} {q : Piece} :
    q ∈ resolveCaptured s atk ↔
      q ∈ s.board.pieces ∧ q.alive = true ∧ q.owner ≠ atk ∧ q.strong = true ∧
        2 ≤ coverageCount s atk (q.position.row, q.position.col) := by
  unfold resolveCaptured Board.alive_pieces
  simp only [List.mem_filter, Bool.and_eq_true, bne_iff_ne, decide_eq_true_eq]
  tauto

theorem board_set_capturesOf (s : GameState) (b : Board) (side : PlayerSide) :
    ({ s with board := b } : GameState).capturesOf side = s.capturesOf side := by
  cases side <;> rfl

theorem resolveCore_capturesOf (s : GameState) (atk : PlayerSide) :
    (resolveCore s atk).capturesOf atk =
      s.capturesOf atk + (resolveCaptured s atk).length := by
  unfold resolveCore
  rw [foldl_procCaptured_captures, board_set_capturesOf]

theorem resolveCore_capturesOf_other (s : GameState) (atk : PlayerSide) :
    (resolveCore s atk).capturesOf (other_player atk) =
      s.capturesOf (other_player atk) := by
  unfold resolveCore
  rw [foldl_procCaptured_captures_other, board_set_capturesOf]

theorem nodup_resolveKilledBoard (s : GameState) (atk : PlayerSide)
    (hn : (s.board.pieces.map (fun p => p.identifier)).Nodup) :
    ((resolveKilledBoard s atk).pieces.map (fun p => p.identifier)).Nodup := by
  unfold resolveKilledBoard
  exact nodup_after_foldl_update _ _ _ (fun p => rfl) hn

theorem nodup_foldl_procCaptured (atk : PlayerSide) (cs : List Piece) (st : GameState)
    (hn : (st.board.pieces.map (fun p => p.identifier)).Nodup) :
    (((cs.foldl (procCaptured atk) st).board.pieces.map (fun p => p.identifier))).Nodup := by
  rw [foldl_procCaptured_map_obs (fun p => p.identifier) (fun p => rfl) (fun p => rfl)]
  exact hn

theorem resolveKilledBoard_dead (s : GameState) (atk : PlayerSide)
    (hn : (s.board.pieces.map (fun p => p.identifier)).Nodup) {q : Piece}
    (hq : q ∈ resolveCaptured s atk) :
    (resolveKilledBoard s atk).pieceWithId q.identifier =
      some { q with alive := false } := by
  unfold resolveKilledBoard
  rw [pieceWithId_foldl_update (fun x => { x with alive := false })
    (fun p => rfl) (fun p => rfl)]
  rw [if_pos (List.mem_map_of_mem _ hq),
    pieceWithId_of_mem_nodup hn (mem_resolveCaptured.mp hq).1]
  rfl

theorem resolveKilledBoard_skip (s : GameState) (atk : PlayerSide)
    (hn : (s.board.pieces.map (fun p => p.identifier)).Nodup) {q : Piece}
    (hqs : q ∈ s.board.pieces) (hnot : q ∉ resolveCaptured s atk) :
    (resolveKilledBoard s atk).pieceWithId q.identifier = some q := by
  unfold resolveKilledBoard
  rw [pieceWithId_foldl_update (fun x => { x with alive := false })
    (fun p => rfl) (fun p => rfl)]
  rw [if_neg ?hni, pieceWithId_of_mem_nodup hn hqs]
  case hni =>
    intro hmem
    obtain ⟨r, hr, hri⟩ := List.mem_map.mp hmem
    have hri2 : r.identifier = q.identifier := hri
    have hrs : r ∈ s.board.pieces := (mem_resolveCaptured.mp hr).1
    have h1 := pieceWithId_of_mem_nodup hn hrs
    have h2 := pieceWithId_of_mem_nodup hn hqs
    rw [hri2] at h1
    have h3 : r = q := Option.some.inj (h1.symm.trans h2)
    exact hnot (h3 ▸ hr)

theorem resolveCore_dead (s : GameState) (atk : PlayerSide)
    (hn : (s.board.pieces.map (fun p => p.identifier)).Nodup) {q : Piece}
    (hq : q ∈ resolveCaptured s atk) :
    (resolveCore s atk).board.pieceWithId q.identifier =
      some { q with alive := false, strong := false } := by
  unfold resolveCore
  have hk := resolveKilledBoard_dead s atk hn hq
  have hnk := nodup_resolveKilledBoard s atk hn
  have hfold := foldl_procCaptured_dead_entry atk (resolveCaptured s atk)
    { s with board := resolveKilledBoard s atk } q.identifier { q with alive := false }
    hnk hk rfl
  rw [hfold, if_pos (List.mem_map_of_mem _ hq)]

theorem resolveCore_alive (s : GameState) (atk : PlayerSide)
    (hn : (s.board.pieces.map (fun p => p.identifier)).Nodup) {q : Piece}
    (hqs : q ∈ s.board.pieces) (hnot : q ∉ resolveCaptured s atk) :
    ∃ b : Bool, (resolveCore s atk).board.pieceWithId q.identifier =
      some { q with strong := b } := by
  unfold resolveCore
  exact foldl_procCaptured_entry_strong atk _ _ q.identifier q
    (resolveKilledBoard_skip s atk hn hqs hnot)

theorem resolveCore_reinforce (s : GameState) (atk : PlayerSide)
    (hn : (s.board.pieces.map (fun p => p.identifier)).Nodup)
    (hne : resolveCaptured s atk ≠ [])
    (hlen : ((resolveCore s atk).pieces_for_side (other_player atk)).length = 2) :
    ∀ p ∈ (resolveCore s atk).pieces_for_side (other_player atk), p.strong = true := by
  obtain hcs | ⟨cs2, c, hcs⟩ := (resolveCaptured s atk).eq_nil_or_concat
  · exact absurd hcs hne
  · have hc : c ∈ resolveCaptured s atk := by
      rw [hcs, List.concat_eq_append]
      exact List.mem_append_right _ (List.mem_cons_self _ _)
    have ho : c.owner = other_player atk := other_of_ne (mem_resolveCaptured.mp hc).2.2.1
    have hcore : resolveCore s atk = procCaptured atk
        (cs2.foldl (procCaptured atk) { s with board := resolveKilledBoard s atk }) c := by
      unfold resolveCore
      rw [hcs, List.concat_eq_append, List.foldl_append, List.foldl_cons, List.foldl_nil]
    have hnp := nodup_foldl_procCaptured atk cs2
      { s with board := resolveKilledBoard s atk } (nodup_resolveKilledBoard s atk hn)
    rw [hcore, ← ho] at hlen ⊢
    exact procCaptured_reinforce atk _ c hnp hlen

/-- C1: on a board whose identifiers are unique, _resolve_captures(attacker)
captures exactly the alive opposing strong pieces whose coordinate is covered
by two or more of the attacker's alive strong pieces, with coverage computed
once against the pre-capture occupancy (weak opposing pieces are never
captured); each captured piece ends dead and not-strong, the attacker's
capture counter grows by one per captured piece while the opponent's counter
is unchanged, every other alive piece survives with at most its strong flag
changed, and if at least one piece was captured and the defending side is
left with exactly two living pieces, both of those pieces are strong. -/
theorem c1_resolve_captures_characterization (s : GameState) (atk : PlayerSide)
    (ret : List Piece) (s2 : GameState)
    (hn : (s.board.pieces.map (fun p => p.identifier)).Nodup)
    (h : s.resolve_captures atk = (ret, s2)) :
    (∀ p : Piece, p ∈ ret ↔ ∃ q ∈ s.board.pieces, q.alive = true ∧ q.owner ≠ atk ∧
        q.strong = true ∧ 2 ≤ coverageCount s atk (q.position.row, q.position.col) ∧
        p = { q with alive := false, strong := false }) ∧
    (∀ q ∈ s.board.pieces, q.alive = true → q.owner ≠ atk → q.strong = true →
        2 ≤ coverageCount s atk (q.position.row, q.position.col) →
        s2.board.pieceWithId q.identifier =
          some { q with alive := false, strong := false }) ∧
    s2.capturesOf atk = s.capturesOf atk + ret.length ∧
    s2.capturesOf (other_player atk) = s.capturesOf (other_player atk) ∧
    (∀ q ∈ s.board.pieces, q.alive = true →
        ¬(q.owner ≠ atk ∧ q.strong = true ∧
          2 ≤ coverageCount s atk (q.position.row, q.position.col)) →
        ∃ b : Bool, s2.board.pieceWithId q.identifier = some { q with strong := b }) ∧
    (ret ≠ [] → (s2.pieces_for_side (other_player atk)).length = 2 →
      ∀ p ∈ s2.pieces_for_side (other_player atk), p.strong = true) := by
  have hret : ret = (resolveCaptured s atk).map
      (fun c => { c with alive := false, strong := false }) := by
    rw [← resolve_captures_fst, h]
  have hboard : s2.board = (resolveCore s atk).board := by
    rw [← resolve_captures_board, h]
  have hcap : ∀ side, s2.capturesOf side = (resolveCore s atk).capturesOf side := by
    intro side
    rw [← resolve_captures_capturesOf, h]
  have hpfs : ∀ side, s2.pieces_for_side side = (resolveCore s atk).pieces_for_side side := by
    intro side
    unfold GameState.pieces_for_side
    rw [hboard]
  refine ⟨?_, ?_, ?_, ?_, ?_, ?_⟩
  · intro p
    rw [hret, List.mem_map]
    constructor
    · rintro ⟨q, hq, hmd⟩
      obtain ⟨hqs, ha, ho, hst, hcov⟩ := mem_resolveCaptured.mp hq
      exact ⟨q, hqs, ha, ho, hst, hcov, hmd.symm⟩
    · rintro ⟨q, hqs, ha, ho, hst, hcov, hmd⟩
      exact ⟨q, mem_resolveCaptured.mpr ⟨hqs, ha, ho, hst, hcov⟩, hmd.symm⟩
  · intro q hqs ha ho hst hcov
    rw [hboard]
    exact resolveCore_dead s atk hn (mem_resolveCaptured.mpr ⟨hqs, ha, ho, hst, hcov⟩)
  · rw [hcap atk, hret, List.length_map, resolveCore_capturesOf]
  · rw [hcap (other_player atk), resolveCore_capturesOf_other]
  · intro q hqs ha hnq
    rw [hboard]
    refine resolveCore_alive s atk hn hqs ?_
    intro hmem
    obtain ⟨_, _, ho, hst, hcov⟩ := mem_resolveCaptured.mp hmem
    exact hnq ⟨ho, hst, hcov⟩
  · intro hne hlen p hp
    have hcne : resolveCaptured s atk ≠ [] := by
      intro hc
      refine hne ?_
      rw [hret, hc]
      rfl
    rw [hpfs] at hlen hp
    exact resolveCore_reinforce s atk hn hcne hlen p hp

/-- witness instantiating C1 on a concrete mid-game position in which SOUTH
captures the strong northern rectangle covered by two strong southern
pieces. -/
theorem c1_resolve_captures_characterization_witness :
    (sC3.board.pieces.map (fun p => p.identifier)).Nodup ∧
    (sC3.resolve_captures PlayerSide.SOUTH).2.capturesOf PlayerSide.SOUTH =
      sC3.capturesOf PlayerSide.SOUTH +
        (sC3.resolve_captures PlayerSide.SOUTH).1.length :=
  ⟨by decide, (c1_resolve_captures_characterization sC3 PlayerSide.SOUTH
    (sC3.resolve_captures PlayerSide.SOUTH).1 (sC3.resolve_captures PlayerSide.SOUTH).2
    (by decide) Prod.mk.eta.symm).2.2.1⟩

/-- spec-side resurrection eligibility: the side has exactly one dead piece
and its two living pieces both stand on the enemy's home edge row. -/
def resurrectionEligibleSpec (s : GameState) (side : PlayerSide) : Prop :=
  (s.board.pieces.filter (fun p => p.owner == side && !p.alive)).length = 1 ∧
  (s.pieces_for_side side).length = 2 ∧
  ∀ p ∈ s.pieces_for_side side, p.position.row = side.enemy_home_row

theorem can_resurrect_isSome_iff (s : GameState) (side : PlayerSide) :
    (s.can_resurrect side).isSome = true ↔ resurrectionEligibleSpec s side := by
  unfold GameState.can_resurrect resurrectionEligibleSpec
  simp only []
  split
  · rename_i h1
    simp only [Option.isSome_none, Bool.false_eq_true, false_iff]
    intro hcon
    exact h1 hcon.1
  · rename_i h1
    split
    · rename_i h2
      simp only [Option.isSome_none, Bool.false_eq_true, false_iff]
      intro hcon
      exact h2 hcon.2.1
    · rename_i h2
      split
      · rename_i h3
        constructor
        · intro _
          refine ⟨not_not.mp h1, not_not.mp h2, ?_⟩
          intro p hp
          exact beq_iff_eq.mp (List.all_eq_true.mp h3 p hp)
        · intro _
          rw [List.head?_isSome]
          intro hc
          rw [hc] at h1
          exact h1 (by simp)
      · rename_i h3
        simp only [Option.isSome_none, Bool.false_eq_true, false_iff]
        intro hcon
        refine h3 (List.all_eq_true.mpr ?_)
        intro p hp
        exact beq_iff_eq.mpr (hcon.2.2 p hp)

theorem mem_iter_half_board {side : PlayerSide} {pos : Position} :
    pos ∈ iter_half_board side ↔ pos.row ∈ side.home_rows ∧ pos.col < 8 := by
  unfold iter_half_board
  simp only [List.mem_flatMap, List.mem_map, List.mem_range]
  constructor
  · rintro ⟨row, hrow, ⟨col, hcol, rfl⟩⟩
    exact ⟨hrow, hcol⟩
  · rintro ⟨hrow, hcol⟩
    exact ⟨pos.row, hrow, pos.col, hcol, rfl⟩

theorem isOk_validate_resurrection_iff (s : GameState) (side : PlayerSide) (pos : Position) :
    isOkE (s.validate_resurrection_position side pos) = true ↔
      pos.row ∈ side.home_rows ∧ s.board.is_occupied pos = false ∧
        ∀ p ∈ s.board.alive_pieces,
          p.position.row ≠ pos.row ∧ p.position.col ≠ pos.col := by
  unfold GameState.validate_resurrection_position GameState.validate_half
  by_cases h1 : pos.row ∈ side.home_rows
  · rw [if_pos h1]
    simp only []
    by_cases h2 : s.board.is_occupied pos
    · simp only [h2, if_true, isOkE]
      simp [h1, h2]
    · rw [if_neg (by simp [h2])]
      by_cases h3 : s.board.alive_pieces.any
          (fun p => p.position.row == pos.row || p.position.col == pos.col)
      · rw [if_pos h3]
        simp only [isOkE, Bool.false_eq_true, false_iff]
        intro hcon
        rw [List.any_eq_true] at h3
        obtain ⟨p, hp, hor⟩ := h3
        rcases Bool.or_eq_true_iff.mp hor with he | he
        · exact (hcon.2.2 p hp).1 (beq_iff_eq.mp he)
        · exact (hcon.2.2 p hp).2 (beq_iff_eq.mp he)
      · rw [if_neg h3]
        simp only [isOkE, true_iff]
        refine ⟨h1, by simp [h2], ?_⟩
        intro p hp
        rw [List.any_eq_true] at h3
        push_neg at h3
        have := h3 p hp
        constructor
        · intro hr
          exact absurd (by simp [hr]) this
        · intro hc
          exact absurd (by simp [hc]) this
  · rw [if_neg h1]
    simp only [isOkE, Bool.false_eq_true, false_iff]
    intro hcon
    exact h1 hcon.1

theorem mem_available_resurrection (s : GameState) (side : PlayerSide)
    (helig : (s.can_resurrect side).isSome = true) (pos : Position) :
    pos ∈ s.available_resurrection_positions side ↔
      pos.row ∈ side.home_rows ∧ pos.col < 8 ∧ s.board.is_occupied pos = false ∧
        ∀ p ∈ s.board.alive_pieces,
          p.position.row ≠ pos.row ∧ p.position.col ≠ pos.col := by
  unfold GameState.available_resurrection_positions
  split
  · rename_i heq
    rw [heq] at helig
    cases helig
  · rw [List.mem_filter, mem_iter_half_board, isOk_validate_resurrection_iff]
    tauto

theorem exists_mem_not_mem {α : Type} (rows blocked : List α)
    (hn : rows.Nodup) (hlt : blocked.length < rows.length) :
    ∃ r ∈ rows, r ∉ blocked := by
  by_contra hcon
  push_neg at hcon
  have hsub : rows ⊆ blocked := hcon
  have hle := (List.Nodup.subperm hn hsub).length_le
  omega

theorem length_filter_split {α : Type} (p : α → Bool) (l : List α) :
    (l.filter p).length + (l.filter (fun a => !(p a))).length = l.length := by
  induction l with
  | nil => rfl
  | cons a l ih =>
    by_cases h : p a = true
    · simp [List.filter_cons, h]
      omega
    · have h2 : p a = false := by revert h; cases p a <;> simp
      simp [List.filter_cons, h2]
      omega

theorem nodup_home_rows (side : PlayerSide) : side.home_rows.Nodup := by
  cases side <;> decide

theorem enemy_home_row_not_home (side : PlayerSide) :
    side.enemy_home_row ∉ side.home_rows := by
  cases side <;> decide

theorem home_rows_length (side : PlayerSide) : side.home_rows.length = 4 := by
  cases side <;> rfl

theorem available_resurrection_nonempty (s : GameState) (side : PlayerSide)
    (helig : resurrectionEligibleSpec s side)
    (henemy : (s.board.alive_pieces.filter (fun p => !(p.owner == side))).length ≤ 3) :
    s.available_resurrection_positions side ≠ [] := by
  obtain ⟨r, hr, hrfree⟩ := exists_mem_not_mem side.home_rows
    ((s.board.alive_pieces.filter (fun p => !(p.owner == side))).map
      (fun p => p.position.row))
    (nodup_home_rows side)
    (by rw [List.length_map, home_rows_length]; omega)
  have htot : s.board.alive_pieces.length ≤ 5 := by
    have hsplit := length_filter_split (fun p => p.owner == side) s.board.alive_pieces
    have h2 : (s.board.alive_pieces.filter (fun p => p.owner == side)).length = 2 :=
      helig.2.1
    omega
  obtain ⟨c, hc, hcfree⟩ := exists_mem_not_mem (List.range 8)
    (s.board.alive_pieces.map (fun p => p.position.col))
    (List.nodup_range 8)
    (by rw [List.length_map, List.length_range]; omega)
  have halign : ∀ p ∈ s.board.alive_pieces,
      p.position.row ≠ r ∧ p.position.col ≠ c := by
    intro p hp
    constructor
    · intro hrow
      by_cases powner : p.owner = side
      · have hps : p ∈ s.pieces_for_side side := by
          unfold GameState.pieces_for_side
          exact List.mem_filter.mpr ⟨hp, by simp [powner]⟩
        have := helig.2.2 p hps
        rw [this] at hrow
        exact enemy_home_row_not_home side (hrow ▸ hr)
      · have hpe : p ∈ s.board.alive_pieces.filter (fun p => !(p.owner == side)) :=
          List.mem_filter.mpr ⟨hp, by simp [powner]⟩
        exact hrfree (hrow ▸ List.mem_map_of_mem (fun p => p.position.row) hpe)
    · intro hcol
      exact hcfree (hcol ▸ List.mem_map_of_mem (fun p => p.position.col) hp)
  have hunocc : s.board.is_occupied ⟨r, c⟩ = false := by
    unfold Board.is_occupied Board.piece_at
    rw [List.find?_eq_none.mpr]
    · rfl
    · intro p hp hpos
      have : p.position.row = r := congrArg Position.row (beq_iff_eq.mp hpos)
      exact (halign p hp).1 this
  have hmem : (⟨r, c⟩ : Position) ∈ s.available_resurrection_positions side := by
    rw [mem_available_resurrection s side ((can_resurrect_isSome_iff s side).mpr helig)]
    exact ⟨hr, List.mem_range.mp hc, hunocc, halign⟩
  exact List.ne_nil_of_mem hmem

/-- C5: the resurrection candidate exists exactly when the side has one dead
piece and its two living pieces both stand on the enemy's home edge row; an
ineligible side gets the empty list of resurrection positions; for an
eligible side the available positions are exactly the squares of the side's
own home rows that are unoccupied and share no row or column with any living
piece, and (under the game's piece-count invariant, at most three living
opposing pieces) that list is never empty. -/
theorem c5_available_resurrection_positions (s : GameState) (side : PlayerSide) :
    ((s.can_resurrect side).isSome = true ↔ resurrectionEligibleSpec s side) ∧
    (¬ resurrectionEligibleSpec s side →
      s.available_resurrection_positions side = []) ∧
    (resurrectionEligibleSpec s side →
      ∀ pos : Position, pos ∈ s.available_resurrection_positions side ↔
        pos.row ∈ side.home_rows ∧ pos.col < 8 ∧ s.board.is_occupied pos = false ∧
          ∀ p ∈ s.board.alive_pieces,
            p.position.row ≠ pos.row ∧ p.position.col ≠ pos.col) ∧
    (resurrectionEligibleSpec s side →
      (s.board.alive_pieces.filter (fun p => !(p.owner == side))).length ≤ 3 →
      s.available_resurrection_positions side ≠ []) := by
  refine ⟨can_resurrect_isSome_iff s side, ?_, ?_, ?_⟩
  · intro hne
    unfold GameState.available_resurrection_positions
    split
    · rfl
    · rename_i c heq
      exact absurd ((can_resurrect_isSome_iff s side).mp (by rw [heq]; rfl)) hne
  · intro helig
    exact mem_available_resurrection s side ((can_resurrect_isSome_iff s side).mpr helig)
  · exact available_resurrection_nonempty s side

/-- mid-game position where SOUTH has lost its triangle and keeps both
survivors on the enemy home edge row, so SOUTH is resurrection-eligible. -/
def sC5w : GameState where
  board := ⟨[⟨"S_triangle", .SOUTH, .TRIANGLE, ⟨0, 0⟩, false, false⟩,
    ⟨"S_rectangle", .SOUTH, .RECTANGLE, ⟨7, 1⟩, true, true⟩,
    ⟨"S_square", .SOUTH, .SQUARE, ⟨7, 4⟩, true, true⟩,
    ⟨"N_triangle", .NORTH, .TRIANGLE, ⟨5, 2⟩, false, true⟩,
    ⟨"N_rectangle", .NORTH, .RECTANGLE, ⟨4, 6⟩, true, true⟩,
    ⟨"N_square", .NORTH, .SQUARE, ⟨6, 0⟩, true, true⟩]⟩
  starting_player := .SOUTH
  current_player := .SOUTH
  phase := .ACTIVE
  placements_S := []
  placements_N := []
  assigned_S := true
  assigned_N := true
  captures_S := 1
  captures_N := 0
  winner := none
  awaiting_resurrection := none

/-- witness instantiating C5 for SOUTH on a concrete eligible position. -/
theorem c5_available_resurrection_positions_witness :
    resurrectionEligibleSpec sC5w PlayerSide.SOUTH ∧
    (sC5w.board.alive_pieces.filter
      (fun p => !(p.owner == PlayerSide.SOUTH))).length ≤ 3 ∧
    sC5w.available_resurrection_positions PlayerSide.SOUTH ≠ [] :=
  ⟨⟨by decide, by decide, by decide⟩, by decide,
    (c5_available_resurrection_positions sC5w PlayerSide.SOUTH).2.2.2
      ⟨by decide, by decide, by decide⟩ (by decide)⟩

/-- spec predicate: the projected row at distance d is on the board. -/
def rowOK (p : Position) (dir : Int) (d : Nat) : Prop :=
  0 ≤ rowAtD p dir d ∧ rowAtD p dir d < 8

instance (p : Position) (dir : Int) (d : Nat) : Decidable (rowOK p dir d) := by
  unfold rowOK
  infer_instance

/-- spec predicate: at distance e the cone covers column c, the projected row
is on the board, and the square there is occupied (so column c gets blocked
for all strictly deeper distances). -/
def qualifiesBlock (p : Position) (dir : Int) (occ : List (Nat × Nat))
    (c : Nat) (e : Nat) : Prop :=
  1 ≤ e ∧ rowOK p dir e ∧ (p.col : Int) - e ≤ c ∧ (c : Int) ≤ (p.col : Int) + e ∧
    c < 8 ∧ ((rowAtD p dir e).toNat, c) ∈ occ

/-- spec predicate: column c was blocked at a strictly shallower distance
than d. -/
def blockedBeforeP (p : Position) (dir : Int) (occ : List (Nat × Nat))
    (c : Nat) (d : Nat) : Prop :=
  ∃ e, e < d ∧ qualifiesBlock p dir occ c e

/-- spec predicate: target t is covered at distance d of the widening cone:
d ≥ 1, the projected row is on the board and is t.row, t.col lies in the
cone window [col-d, col+d] and on the board, and t.col was not blocked at a
strictly shallower distance. -/
def coveredAt (p : Position) (dir : Int) (occ : List (Nat × Nat))
    (t : Position) (d : Nat) : Prop :=
  1 ≤ d ∧ rowOK p dir d ∧ (t.row : Int) = rowAtD p dir d ∧
    (p.col : Int) - d ≤ t.col ∧ (t.col : Int) ≤ (p.col : Int) + d ∧ t.col < 8 ∧
    ¬ blockedBeforeP p dir occ t.col d

/-- spec-side triangle attack set, written from the specification text. -/
def triangleSpec (p : Position) (dir : Int) (occ : List (Nat × Nat))
    (t : Position) : Prop :=
  ∃ d, coveredAt p dir occ t d

theorem triStep_mem (row : Nat) (occ : List (Nat × Nat))
    (acc : List Position × List Nat) (ci : Int) :
    (∀ t : Position, t ∈ (triStep row occ acc ci).1 ↔
      t ∈ acc.1 ∨ (t.row = row ∧ (t.col : Int) = ci ∧ t.col < 8 ∧ t.col ∉ acc.2)) ∧
    (∀ c : Nat, c ∈ (triStep row occ acc ci).2 ↔
      c ∈ acc.2 ∨ ((c : Int) = ci ∧ c < 8 ∧ c ∉ acc.2 ∧ (row, c) ∈ occ)) := by
  unfold triStep
  by_cases hb : 0 ≤ ci ∧ ci < 8
  · rw [if_pos hb]
    by_cases hblk : ci.toNat ∈ acc.2
    · rw [if_pos hblk]
      constructor
      · intro t
        constructor
        · exact Or.inl
        · rintro (h | ⟨h1, h2, h3, h4⟩)
          · exact h
          · exfalso
            refine h4 ?_
            have hc : t.col = ci.toNat := by omega
            rw [hc]
            exact hblk
      · intro c
        constructor
        · exact Or.inl
        · rintro (h | ⟨h1, h2, h3, h4⟩)
          · exact h
          · exfalso
            refine h3 ?_
            have hc : c = ci.toNat := by omega
            rw [hc]
            exact hblk
    · rw [if_neg hblk]
      by_cases hocc : (row, ci.toNat) ∈ occ
      · rw [if_pos hocc]
        constructor
        · intro t
          simp only [List.mem_cons]
          constructor
          · rintro (rfl | h)
            · exact Or.inr ⟨rfl, by dsimp only; omega, by dsimp only; omega, hblk⟩
            · exact Or.inl h
          · rintro (h | ⟨h1, h2, h3, h4⟩)
            · exact Or.inr h
            · refine Or.inl ?_
              obtain ⟨tr, tc⟩ := t
              simp only at h1 h2 h3 h4 ⊢
              rw [Position.mk.injEq]
              exact ⟨h1, by omega⟩
        · intro c
          simp only [List.mem_cons]
          constructor
          · rintro (rfl | h)
            · exact Or.inr ⟨by omega, by omega, hblk, hocc⟩
            · exact Or.inl h
          · rintro (h | ⟨h1, h2, h3, h4⟩)
            · exact Or.inr h
            · refine Or.inl ?_
              omega
      · rw [if_neg hocc]
        constructor
        · intro t
          simp only [List.mem_cons]
          constructor
          · rintro (rfl | h)
            · exact Or.inr ⟨rfl, by dsimp only; omega, by dsimp only; omega, hblk⟩
            · exact Or.inl h
          · rintro (h | ⟨h1, h2, h3, h4⟩)
            · exact Or.inr h
            · refine Or.inl ?_
              obtain ⟨tr, tc⟩ := t
              simp only at h1 h2 h3 h4 ⊢
              rw [Position.mk.injEq]
              exact ⟨h1, by omega⟩
        · intro c
          constructor
          · exact Or.inl
          · rintro (h | ⟨h1, h2, h3, h4⟩)
            · exact h
            · exfalso
              refine hocc ?_
              have hc : c = ci.toNat := by omega
              rw [← hc]
              exact h4
  · rw [if_neg hb]
    constructor
    · intro t
      constructor
      · exact Or.inl
      · rintro (h | ⟨h1, h2, h3, h4⟩)
        · exact h
        · exfalso
          exact hb (by omega)
    · intro c
      constructor
      · exact Or.inl
      · rintro (h | ⟨h1, h2, h3, h4⟩)
        · exact h
        · exfalso
          exact hb (by omega)

theorem triStep_fold (row : Nat) (occ : List (Nat × Nat)) :
    ∀ (cols : List Int), cols.Nodup →
    ∀ (acc : List Position × List Nat),
      (∀ t : Position,
        t ∈ (cols.foldl (triStep row occ) acc).1 ↔
          t ∈ acc.1 ∨ (t.row = row ∧ (t.col : Int) ∈ cols ∧ t.col < 8 ∧ t.col ∉ acc.2)) ∧
      (∀ c : Nat,
        c ∈ (cols.foldl (triStep row occ) acc).2 ↔
          c ∈ acc.2 ∨ ((c : Int) ∈ cols ∧ c < 8 ∧ c ∉ acc.2 ∧ (row, c) ∈ occ)) := by
  intro cols
  induction cols with
  | nil =>
    intro _ acc
    constructor
    · intro t
      simp
    · intro c
      simp
  | cons ci cols ih =>
    intro hnd acc
    have hci : ci ∉ cols := (List.nodup_cons.mp hnd).1
    obtain ⟨ihres, ihblk⟩ := ih (List.nodup_cons.mp hnd).2 (triStep row occ acc ci)
    obtain ⟨sres, sblk⟩ := triStep_mem row occ acc ci
    rw [List.foldl_cons]
    constructor
    · intro t
      rw [ihres t, sres t]
      constructor
      · rintro ((h | ⟨h1, h2, h3, h4⟩) | ⟨h1, h2, h3, h4⟩)
        · exact Or.inl h
        · exact Or.inr ⟨h1, by rw [h2]; exact List.mem_cons_self _ _, h3, h4⟩
        · have h4b : t.col ∉ acc.2 := fun hc => h4 ((sblk t.col).mpr (Or.inl hc))
          exact Or.inr ⟨h1, List.mem_cons_of_mem _ h2, h3, h4b⟩
      · rintro (h | ⟨h1, h2, h3, h4⟩)
        · exact Or.inl (Or.inl h)
        · rcases List.mem_cons.mp h2 with he | he
          · exact Or.inl (Or.inr ⟨h1, he, h3, h4⟩)
          · refine Or.inr ⟨h1, he, h3, ?_⟩
            intro hc
            rcases (sblk t.col).mp hc with hx | ⟨hx1, hx2, hx3, hx4⟩
            · exact h4 hx
            · exact hci (hx1 ▸ he)
    · intro c
      rw [ihblk c, sblk c]
      constructor
      · rintro ((h | ⟨h1, h2, h3, h4⟩) | ⟨h1, h2, h3, h4⟩)
        · exact Or.inl h
        · exact Or.inr ⟨by rw [h1]; exact List.mem_cons_self _ _, h2, h3, h4⟩
        · have h3b : c ∉ acc.2 := fun hc => h3 (Or.inl hc)
          exact Or.inr ⟨List.mem_cons_of_mem _ h1, h2, h3b, h4⟩
      · rintro (h | ⟨h1, h2, h3, h4⟩)
        · exact Or.inl (Or.inl h)
        · rcases List.mem_cons.mp h1 with he | he
          · exact Or.inl (Or.inr ⟨he, h2, h3, h4⟩)
          · refine Or.inr ⟨he, h2, ?_, h4⟩
            rintro (hx | ⟨hx1, hx2, hx3, hx4⟩)
            · exact h3 hx
            · exact hci (hx1 ▸ he)
  
theorem mem_triWindow {p : Position} {d : Nat} {ci : Int} :
    ci ∈ triWindow p d ↔ (p.col : Int) - d ≤ ci ∧ ci ≤ (p.col : Int) + d := by
  unfold triWindow
  simp only [List.mem_map, List.mem_range]
  constructor
  · rintro ⟨off, hoff, rfl⟩
    omega
  · rintro ⟨h1, h2⟩
    exact ⟨(ci - ((p.col : Int) - d)).toNat, by omega, by omega⟩

theorem nodup_triWindow (p : Position) (d : Nat) : (triWindow p d).Nodup := by
  unfold triWindow
  exact (List.nodup_range _).map (fun a b h => by omega)

theorem rowOK_fail_ge (p : Position) (dir : Int) (hdir : dir = 1 ∨ dir = -1)
    (hrow : p.row < 8) {d e : Nat} (hf : ¬ rowOK p dir d) (hde : d ≤ e) :
    ¬ rowOK p dir e := by
  unfold rowOK rowAtD at *
  rcases hdir with rfl | rfl <;> omega

theorem rowOK_big (p : Position) (dir : Int) (hdir : dir = 1 ∨ dir = -1)
    (hrow : p.row < 8) {e : Nat} (he : 8 ≤ e) : ¬ rowOK p dir e := by
  unfold rowOK rowAtD
  rcases hdir with rfl | rfl <;> omega

theorem triangleAux_spec (p : Position) (dir : Int) (occ : List (Nat × Nat))
    (hdir : dir = 1 ∨ dir = -1) (hrow : p.row < 8) :
    ∀ (fuel d : Nat) (acc : List Position × List Nat),
      1 ≤ d →
      (∀ e, d + fuel ≤ e → ¬ rowOK p dir e) →
      (∀ t : Position, t ∈ acc.1 ↔ ∃ e, e < d ∧ coveredAt p dir occ t e) →
      (∀ c : Nat, c ∈ acc.2 ↔ ∃ e, e < d ∧ qualifiesBlock p dir occ c e) →
      (∀ t : Position,
        t ∈ (triangleAux p dir occ d fuel acc).1 ↔ triangleSpec p dir occ t) ∧
      (∀ c : Nat,
        c ∈ (triangleAux p dir occ d fuel acc).2 ↔ ∃ e, qualifiesBlock p dir occ c e) := by
  intro fuel
  induction fuel with
  | zero =>
    intro d acc hd hfuel hres hblk
    constructor
    · intro t
      rw [show triangleAux p dir occ d 0 acc = acc from rfl, hres t]
      constructor
      · rintro ⟨e, _, he⟩
        exact ⟨e, he⟩
      · rintro ⟨e, he⟩
        refine ⟨e, ?_, he⟩
        by_contra hcon
        exact hfuel e (by omega) he.2.1
    · intro c
      rw [show triangleAux p dir occ d 0 acc = acc from rfl, hblk c]
      constructor
      · rintro ⟨e, _, he⟩
        exact ⟨e, he⟩
      · rintro ⟨e, he⟩
        refine ⟨e, ?_, he⟩
        by_contra hcon
        exact hfuel e (by omega) he.2.1
  | succ fuel ih =>
    intro d acc hd hfuel hres hblk
    by_cases hrk : rowOK p dir d
    · have hrk2 : 0 ≤ rowAtD p dir d ∧ rowAtD p dir d < 8 := hrk
      have hstep : triangleAux p dir occ d (fuel + 1) acc =
          triangleAux p dir occ (d + 1) fuel
            ((triWindow p d).foldl (triStep (rowAtD p dir d).toNat occ) acc) := by
        conv_lhs => rw [triangleAux]
        rw [if_pos hrk2]
      obtain ⟨fres, fblk⟩ := triStep_fold (rowAtD p dir d).toNat occ
        (triWindow p d) (nodup_triWindow p d) acc
      have hnewres : ∀ t : Position,
          t ∈ ((triWindow p d).foldl (triStep (rowAtD p dir d).toNat occ) acc).1 ↔
            ∃ e, e < d + 1 ∧ coveredAt p dir occ t e := by
        intro t
        rw [fres t]
        constructor
        · rintro (h | ⟨h1, h2, h3, h4⟩)
          · obtain ⟨e, he1, he2⟩ := (hres t).mp h
            exact ⟨e, by omega, he2⟩
          · have hcone := mem_triWindow.mp h2
            refine ⟨d, by omega, hd, hrk, ?_, hcone.1, hcone.2, h3, ?_⟩
            · have h0 := hrk2.1
              omega
            · intro hbb
              exact h4 ((hblk t.col).mpr hbb)
        · rintro ⟨e, he, hc⟩
          by_cases hed : e = d
          · subst hed
            obtain ⟨hc1, hc2, hc3, hc4, hc5, hc6, hc7⟩ := hc
            refine Or.inr ⟨?_, mem_triWindow.mpr ⟨hc4, hc5⟩, hc6, ?_⟩
            · have h0 := hrk2.1
              omega
            · intro hx
              exact hc7 ((hblk t.col).mp hx)
          · exact Or.inl ((hres t).mpr ⟨e, by omega, hc⟩)
      have hnewblk : ∀ c : Nat,
          c ∈ ((triWindow p d).foldl (triStep (rowAtD p dir d).toNat occ) acc).2 ↔
            ∃ e, e < d + 1 ∧ qualifiesBlock p dir occ c e := by
        intro c
        rw [fblk c]
        constructor
        · rintro (h | ⟨h1, h2, h3, h4⟩)
          · obtain ⟨e, he1, he2⟩ := (hblk c).mp h
            exact ⟨e, by omega, he2⟩
          · have hcone := mem_triWindow.mp h1
            exact ⟨d, by omega, hd, hrk, hcone.1, hcone.2, h2, h4⟩
        · rintro ⟨e, he, hc⟩
          by_cases hed : e = d
          · subst hed
            by_cases hmem : c ∈ acc.2
            · exact Or.inl hmem
            · obtain ⟨hc1, hc2, hc3, hc4, hc5, hc6⟩ := hc
              exact Or.inr ⟨mem_triWindow.mpr ⟨hc3, hc4⟩, hc5, hmem, hc6⟩
          · exact Or.inl ((hblk c).mpr ⟨e, by omega, hc⟩)
      rw [hstep]
      exact ih (d + 1) _ (by omega) (fun e he => hfuel e (by omega)) hnewres hnewblk
    · have hrk2 : ¬(0 ≤ rowAtD p dir d ∧ rowAtD p dir d < 8) := hrk
      have hstep : triangleAux p dir occ d (fuel + 1) acc = acc := by
        conv_lhs => rw [triangleAux]
        rw [if_neg hrk2]
      rw [hstep]
      constructor
      · intro t
        rw [hres t]
        constructor
        · rintro ⟨e, _, he⟩
          exact ⟨e, he⟩
        · rintro ⟨e, he⟩
          refine ⟨e, ?_, he⟩
          by_contra hcon
          exact rowOK_fail_ge p dir hdir hrow hrk (by omega) he.2.1
      · intro c
        rw [hblk c]
        constructor
        · rintro ⟨e, _, he⟩
          exact ⟨e, he⟩
        · rintro ⟨e, he⟩
          refine ⟨e, ?_, he⟩
          by_contra hcon
          exact rowOK_fail_ge p dir hdir hrow hrk (by omega) he.2.1

/-- C6: for an on-board origin, triangle_attack_positions returns exactly the
squares of the spec's widening forward cone: some distance d ≥ 1 with the
projected row on the board rowwise equal to the target, target column inside
[col-d, col+d] and on the board, and the column not blocked at any strictly
shallower distance (a column blocks as soon as a covered square of that
column is occupied, the blocking square itself being covered); no square in
a non-forward row is ever covered. -/
theorem c6_triangle_attack_characterization (p : Position) (owner : PlayerSide)
    (occ : List (Nat × Nat)) (hrow : p.row < 8) :
    (∀ t : Position, t ∈ triangle_attack_positions p owner occ ↔
      triangleSpec p owner.forward_step occ t) ∧
    (∀ t ∈ triangle_attack_positions p owner occ,
      (owner = PlayerSide.SOUTH → p.row < t.row) ∧
      (owner = PlayerSide.NORTH → t.row < p.row)) := by
  have hdir : owner.forward_step = 1 ∨ owner.forward_step = -1 := by
    cases owner
    · exact Or.inl rfl
    · exact Or.inr rfl
  have hmain := triangleAux_spec p owner.forward_step occ hdir hrow 7 1 ([], [])
    (by omega)
    (fun e he => rowOK_big p owner.forward_step hdir hrow (by omega))
    (fun t => by
      constructor
      · intro h
        simp at h
      · rintro ⟨e, he, hc⟩
        have h1 := hc.1
        omega)
    (fun c => by
      constructor
      · intro h
        simp at h
      · rintro ⟨e, he, hc⟩
        have h1 := hc.1
        omega)
  refine ⟨fun t => hmain.1 t, ?_⟩
  intro t ht
  obtain ⟨d, hc⟩ := (hmain.1 t).mp ht
  obtain ⟨hc1, hc2, hc3, hc4, hc5, hc6, hc7⟩ := hc
  constructor
  · rintro rfl
    unfold rowAtD at hc3
    have hfs : PlayerSide.SOUTH.forward_step = 1 := rfl
    rw [hfs] at hc3
    omega
  · rintro rfl
    unfold rowAtD at hc3
    have hfs : PlayerSide.NORTH.forward_step = -1 := rfl
    rw [hfs] at hc3
    omega

/-- concrete origin and occupancy for the C6 witness. -/
def pC6w : Position := ⟨0, 3⟩

/-- two occupied squares inside the cone of pC6w. -/
def occC6w : List (Nat × Nat) := [(2, 2), (3, 3)]

/-- witness instantiating C6 at a concrete origin with occlusion. -/
theorem c6_triangle_attack_characterization_witness :
    pC6w.row < 8 ∧
    (∀ t : Position, t ∈ triangle_attack_positions pC6w PlayerSide.SOUTH occC6w ↔
      triangleSpec pC6w PlayerSide.SOUTH.forward_step occC6w t) :=
  ⟨by decide, (c6_triangle_attack_characterization pC6w PlayerSide.SOUTH occC6w
    (by decide)).1⟩

/-- the positions of the living pieces, in board order. -/
def alivePositions (b : Board) : List Position :=
  b.alive_pieces.map (fun p => p.position)

/-- board well-formedness maintained by the engine: unique identifiers and at
most one living piece per square. -/
def InvB (b : Board) : Prop :=
  (b.pieces.map (fun p => p.identifier)).Nodup ∧ (alivePositions b).Nodup

theorem pairwise_filter_bool {α : Type} (p : α → Bool) (R : α → α → Prop) (l : List α) :
    (l.filter p).Pairwise R ↔ l.Pairwise (fun a b => p a = true → p b = true → R a b) := by
  have hf : (fun b => p b) = (fun b => decide (p b = true)) := by
    funext b
    cases hb : p b <;> simp
  rw [show l.filter p = l.filter (fun b => decide (p b = true)) from by rw [← hf]]
  exact List.pairwise_filter

theorem nodup_apos_iff (l : List Piece) :
    ((l.filter (fun p => p.alive)).map (fun p => p.position)).Nodup ↔
      l.Pairwise (fun a b => a.alive = true → b.alive = true →
        a.position ≠ b.position) := by
  unfold List.Nodup
  rw [List.pairwise_map, pairwise_filter_bool]

theorem not_occupied_iff (b : Board) (pos : Position) :
    b.is_occupied pos = false ↔ pos ∉ alivePositions b := by
  unfold Board.is_occupied Board.piece_at alivePositions
  cases hf : b.alive_pieces.find? (fun p => p.position == pos) with
  | none =>
    simp only [Option.isSome_none]
    constructor
    · intro _ hmem
      obtain ⟨p, hp, hpp⟩ := List.mem_map.mp hmem
      have := List.find?_eq_none.mp hf p hp
      simp [hpp] at this
    · intro _
      trivial
  | some q =>
    simp only [Option.isSome_some]
    constructor
    · intro h
      cases h
    · intro h
      exfalso
      refine h ?_
      have h1 := List.find?_some hf
      have h2 := List.mem_of_find?_eq_some hf
      exact (beq_iff_eq.mp h1) ▸ List.mem_map_of_mem (fun p => p.position) h2

theorem alivePositions_of_map_obs {b b2 : Board}
    (h : b2.pieces.map (fun p => (p.alive, p.position)) =
      b.pieces.map (fun p => (p.alive, p.position))) :
    alivePositions b2 = alivePositions b := by
  unfold alivePositions Board.alive_pieces
  have key : ∀ l : List Piece,
      (l.filter (fun p => p.alive)).map (fun p => p.position) =
        ((l.map (fun p => (p.alive, p.position))).filter
          (fun x => x.1)).map (fun x => x.2) := by
    intro l
    rw [List.filter_map, List.map_map]
    rfl
  rw [key, key, h]

theorem InvB_of_map_obs {b b2 : Board}
    (hid : b2.pieces.map (fun p => p.identifier) = b.pieces.map (fun p => p.identifier))
    (hap : b2.pieces.map (fun p => (p.alive, p.position)) =
      b.pieces.map (fun p => (p.alive, p.position)))
    (h : InvB b) : InvB b2 := by
  unfold InvB at *
  rw [hid, alivePositions_of_map_obs hap]
  exact h

theorem nodup_alivePositions_update (b : Board) (id : String) (f : Piece → Piece)
    (hfid : ∀ p, (f p).identifier = p.identifier)
    (hn : (b.pieces.map (fun p => p.identifier)).Nodup)
    (q : Piece) (hq : b.pieceWithId id = some q)
    (htar : (f q).alive = true →
      (f q).position ∉ alivePositions b ∨
        ((f q).position = q.position ∧ q.alive = true))
    (hap : (alivePositions b).Nodup) :
    (alivePositions (b.update id f)).Nodup := by
  have hq2 : b.pieces.find? (fun p => p.identifier == id) = some q := hq
  have hq3 := List.find?_some hq2
  have hq4 : (q.identifier == id) = true := hq3
  have hq_id : q.identifier = id := beq_iff_eq.mp hq4
  have hpl := (nodup_apos_iff b.pieces).mp hap
  have hidp : b.pieces.Pairwise (fun a c => a.identifier ≠ c.identifier) :=
    List.pairwise_map.mp hn
  have hcomb := hpl.and hidp
  unfold alivePositions Board.alive_pieces Board.update
  dsimp only
  rw [nodup_apos_iff, List.pairwise_map]
  refine hcomb.imp_of_mem ?_
  intro a c ha hc hr
  obtain ⟨hpos, hid⟩ := hr
  by_cases h1 : (a.identifier == id) = true <;> by_cases h2 : (c.identifier == id) = true
  · exfalso
    exact hid ((beq_iff_eq.mp h1).trans (beq_iff_eq.mp h2).symm)
  · have haq : a = q := by
      have h3 := pieceWithId_of_mem_nodup hn ha
      rw [beq_iff_eq.mp h1, hq] at h3
      exact (Option.some.inj h3).symm
    rw [if_pos h1, if_neg h2]
    intro hfa hca
    rcases htar (haq ▸ hfa) with hno | ⟨hpe, hqa⟩
    · intro hcon
      refine hno ?_
      rw [haq] at hcon
      rw [hcon]
      unfold alivePositions Board.alive_pieces
      refine List.mem_map_of_mem _ (List.mem_filter.mpr ⟨hc, hca⟩)
    · rw [haq, hpe]
      exact haq ▸ hpos (haq.symm ▸ hqa) hca
  · have hcq : c = q := by
      have h3 := pieceWithId_of_mem_nodup hn hc
      rw [beq_iff_eq.mp h2, hq] at h3
      exact (Option.some.inj h3).symm
    rw [if_neg h1, if_pos h2]
    intro hfa hca
    rcases htar (hcq ▸ hca) with hno | ⟨hpe, hqa⟩
    · intro hcon
      refine hno ?_
      rw [hcq] at hcon
      rw [← hcon]
      unfold alivePositions Board.alive_pieces
      exact List.mem_map_of_mem _ (List.mem_filter.mpr ⟨ha, hfa⟩)
    · rw [hcq, hpe]
      exact hcq ▸ hpos hfa (hcq.symm ▸ hqa)
  · rw [if_neg h1, if_neg h2]
    exact hpos

theorem get_piece_ok_pieceWithId {b : Board} {id : String} {p : Piece}
    (h : b.get_piece id = .ok p) : b.pieceWithId id = some p := by
  unfold Board.get_piece at h
  cases hw : b.pieceWithId id <;> rw [hw] at h
  · cases h
  · injection h with h1
    rw [h1]

theorem InvB_update (b : Board) (id : String) (f : Piece → Piece)
    (hfid : ∀ p, (f p).identifier = p.identifier)
    (q : Piece) (hq : b.pieceWithId id = some q)
    (htar : (f q).alive = true →
      (f q).position ∉ alivePositions b ∨
        ((f q).position = q.position ∧ q.alive = true))
    (h : InvB b) : InvB (b.update id f) :=
  ⟨nodup_after_update b id f hfid h.1,
    nodup_alivePositions_update b id f hfid h.1 q hq htar h.2⟩

theorem update_not_found (b : Board) (id : String) (f : Piece → Piece)
    (h : b.pieceWithId id = none) : b.update id f = b := by
  have h2 : b.pieces.find? (fun p => p.identifier == id) = none := h
  unfold Board.update
  obtain ⟨l⟩ := b
  simp only at h2 ⊢
  congr 1
  have key : ∀ a ∈ l, (if (a.identifier == id) = true then f a else a) = a := by
    intro a ha
    rw [if_neg]
    exact List.find?_eq_none.mp h2 a ha
  rw [List.map_congr_left key]
  exact List.map_id l

theorem InvB_kill (b : Board) (id : String) (h : InvB b) :
    InvB (b.update id (fun p => { p with alive := false })) := by
  cases hq : b.pieceWithId id with
  | none =>
    rw [update_not_found b id _ hq]
    exact h
  | some q =>
    refine InvB_update b id _ (fun p => rfl) q hq ?_ h
    intro hcon
    simp at hcon

theorem InvB_add_piece {b b2 : Board} {piece : Piece}
    (h : b.add_piece piece = .ok b2) (hi : InvB b) : InvB b2 := by
  unfold Board.add_piece at h
  by_cases h1 : b.pieces.any (fun p => p.identifier == piece.identifier) = true
  · rw [if_pos h1] at h
    cases h
  · rw [if_neg h1] at h
    by_cases h2 : b.is_occupied piece.position = true
    · rw [if_pos h2] at h
      cases h
    · rw [if_neg h2] at h
      injection h with h
      rw [← h]
      constructor
      · show ((b.pieces ++ [piece]).map (fun p => p.identifier)).Nodup
        rw [List.map_append, List.nodup_append]
        refine ⟨hi.1, List.nodup_singleton _, ?_⟩
        intro x hx hx2
        rcases List.mem_singleton.mp hx2 with rfl
        obtain ⟨p, hp, hpp⟩ := List.mem_map.mp hx
        rw [List.any_eq_true] at h1
        exact h1 ⟨p, hp, by simp [hpp]⟩
      · show alivePositions ⟨b.pieces ++ [piece]⟩ |>.Nodup
        unfold alivePositions Board.alive_pieces
        simp only []
        rw [List.filter_append, List.map_append]
        by_cases ha : piece.alive = true
        · have hf1 : List.filter (fun p => p.alive) [piece] = [piece] := by
            simp [List.filter_cons, ha]
          rw [hf1]
          rw [List.nodup_append]
          refine ⟨hi.2, List.nodup_singleton _, ?_⟩
          intro x hx hx2
          rcases List.mem_singleton.mp hx2 with rfl
          have hocc := (not_occupied_iff b piece.position).mp ((Bool.not_eq_true _).mp h2)
          exact hocc hx
        · have hf1 : List.filter (fun p => p.alive) [piece] = [] := by
            simp [List.filter_cons, ha]
          rw [hf1]
          simpa using hi.2

theorem InvB_move {b b2 : Board} {id : String} {dst : Position}
    (h : b.move_piece id dst = .ok b2) (hi : InvB b) : InvB b2 := by
  unfold Board.move_piece at h
  cases hg : b.get_piece id with
  | error e =>
    rw [hg] at h
    cases h
  | ok piece =>
    rw [hg] at h
    dsimp only at h
    by_cases ha : piece.alive = true
    · rw [if_neg (by simp [ha])] at h
      by_cases ho : b.is_occupied dst = true
      · rw [if_pos ho] at h
        cases h
      · rw [if_neg ho] at h
        injection h with h
        rw [← h]
        refine InvB_update b id _ (fun p => rfl) piece (get_piece_ok_pieceWithId hg) ?_ hi
        intro _
        left
        exact (not_occupied_iff b dst).mp ((Bool.not_eq_true _).mp ho)
    · have ha2 : (!piece.alive) = true := by
        revert ha
        cases piece.alive <;> simp
      rw [if_pos ha2] at h
      cases h

theorem InvB_resurrect {b b2 : Board} {id : String} {pos : Position}
    (h : b.resurrect_piece id pos = .ok b2) (hi : InvB b) : InvB b2 := by
  unfold Board.resurrect_piece at h
  cases hg : b.get_piece id with
  | error e =>
    rw [hg] at h
    cases h
  | ok piece =>
    rw [hg] at h
    dsimp only at h
    by_cases ha : piece.alive = true
    · rw [if_pos ha] at h
      cases h
    · rw [if_neg ha] at h
      by_cases ho : b.is_occupied pos = true
      · rw [if_pos ho] at h
        cases h
      · rw [if_neg ho] at h
        injection h with h
        rw [← h]
        refine InvB_update b id _ (fun p => rfl) piece (get_piece_ok_pieceWithId hg) ?_ hi
        intro _
        left
        exact (not_occupied_iff b pos).mp ((Bool.not_eq_true _).mp ho)

theorem InvB_foldl_kill (cs : List Piece) :
    ∀ b : Board, InvB b →
      InvB (cs.foldl
        (fun bb c => bb.update c.identifier (fun q => { q with alive := false })) b) := by
  induction cs with
  | nil => exact fun b h => h
  | cons c cs ih =>
    intro b h
    rw [List.foldl_cons]
    exact ih _ (InvB_kill b c.identifier h)

theorem InvB_foldl_procCaptured (atk : PlayerSide) (cs : List Piece) (st : GameState)
    (h : InvB st.board) : InvB ((cs.foldl (procCaptured atk) st).board) := by
  refine InvB_of_map_obs ?_ ?_ h
  · exact foldl_procCaptured_map_obs (fun p => p.identifier)
      (fun p => rfl) (fun p => rfl) atk cs st
  · exact foldl_procCaptured_map_obs (fun p => (p.alive, p.position))
      (fun p => rfl) (fun p => rfl) atk cs st

theorem InvB_resolve (s : GameState) (atk : PlayerSide) (h : InvB s.board) :
    InvB ((s.resolve_captures atk).2).board := by
  rw [resolve_captures_board]
  unfold resolveCore
  exact InvB_foldl_procCaptured atk _ _
    (show InvB (resolveKilledBoard s atk) from by
      unfold resolveKilledBoard
      exact InvB_foldl_kill _ s.board h)

theorem swap_board_map_obs {β : Type} (obs : Piece → β)
    (hobs : ∀ (p : Piece) (x : Bool), obs { p with strong := x } = obs p)
    (s : GameState) (side : PlayerSide) (sw : Option (String × String)) :
    ((s.swap_strengths side sw).2).board.pieces.map obs = s.board.pieces.map obs := by
  unfold GameState.swap_strengths
  repeat' (first | rfl | split | dsimp only)
  all_goals
    (rw [List.map_map]
     exact List.map_congr_left (fun a ha => by
       dsimp only [Function.comp]
       split
       · exact hobs _ _
       · split
         · exact hobs _ _
         · rfl))

theorem InvB_swap (s : GameState) (side : PlayerSide) (sw : Option (String × String))
    (h : InvB s.board) : InvB ((s.swap_strengths side sw).2).board := by
  refine InvB_of_map_obs ?_ ?_ h
  · exact swap_board_map_obs (fun p => p.identifier) (fun p x => rfl) s side sw
  · exact swap_board_map_obs (fun p => (p.alive, p.position)) (fun p x => rfl) s side sw

theorem setPlacements_board (s : GameState) (side : PlayerSide) (l : List PieceType) :
    (s.setPlacements side l).board = s.board := by
  cases side <;> rfl

theorem InvB_place (s : GameState) (side : PlayerSide) (kind : PieceType)
    (pos : Position) (h : InvB s.board) :
    InvB ((s.place_piece side kind pos).2).board := by
  unfold GameState.place_piece
  repeat' (first | split | dsimp only)
  all_goals try exact h
  all_goals
    (simp only [setPlacements_board]
     exact InvB_add_piece (by assumption) h)

theorem InvB_assign (s : GameState) (side : PlayerSide) (ids : List String)
    (h : InvB s.board) :
    InvB ((s.assign_initial_strengths side ids).2).board := by
  unfold GameState.assign_initial_strengths
  repeat' (first | split | dsimp only)
  all_goals try exact h
  all_goals
    (simp only [setAssigned_board]
     refine InvB_of_map_obs ?_ ?_ h <;>
       (rw [List.map_map]
        exact List.map_congr_left (fun a ha => by
          dsimp only [Function.comp]
          split
          · rfl
          · rfl)))

theorem InvB_take_turn (s : GameState) (side : PlayerSide) (pid : String)
    (dst : Position) (sw : Option (String × String)) (rp : Option Position)
    (h : InvB s.board) : InvB ((s.take_turn side pid dst sw rp).2).board := by
  unfold GameState.take_turn
  repeat' (first | split | dsimp only)
  all_goals try exact h
  all_goals try exact InvB_swap _ side sw (InvB_move (by assumption) h)
  all_goals try exact InvB_resolve _ side (InvB_swap _ side sw (InvB_move (by assumption) h))
  all_goals
    (refine InvB_resurrect (by assumption) ?_
     exact InvB_resolve _ side (InvB_swap _ side sw (InvB_move (by assumption) h)))

theorem InvB_complete (s : GameState) (side : PlayerSide) (pos : Position)
    (h : InvB s.board) : InvB ((s.complete_resurrection side pos).2).board := by
  unfold GameState.complete_resurrection
  repeat' (first | split | dsimp only)
  all_goals try exact h
  all_goals exact InvB_resurrect (by assumption) h

/-- one public engine call with its arguments. -/
inductive Op where
  | place (side : PlayerSide) (kind : PieceType) (pos : Position)
  | assign (side : PlayerSide) (ids : List String)
  | turn (side : PlayerSide) (pid : String) (dst : Position)
      (sw : Option (String × String)) (rp : Option Position)
  | complete (side : PlayerSide) (pos : Position)

/-- the state left behind by a public engine call, also when it fails (the
second component of each operation carries the mutated-so-far state). -/
def applyOp (s : GameState) : Op → GameState
  | .place side kind pos => (s.place_piece side kind pos).2
  | .assign side ids => (s.assign_initial_strengths side ids).2
  | .turn side pid dst sw rp => (s.take_turn side pid dst sw rp).2
  | .complete side pos => (s.complete_resurrection side pos).2

/-- states reachable from a fresh game through the public operations. -/
inductive Reachable : GameState → Prop where
  | init (sp : PlayerSide) : Reachable (GameState.fresh sp)
  | step {s : GameState} (op : Op) : Reachable s → Reachable (applyOp s op)

theorem InvB_applyOp (s : GameState) (op : Op) (h : InvB s.board) :
    InvB (applyOp s op).board := by
  cases op with
  | place side kind pos => exact InvB_place s side kind pos h
  | assign side ids => exact InvB_assign s side ids h
  | turn side pid dst sw rp => exact InvB_take_turn s side pid dst sw rp h
  | complete side pos => exact InvB_complete s side pos h

theorem InvB_reachable (s : GameState) (h : Reachable s) : InvB s.board := by
  induction h with
  | init sp => exact ⟨List.nodup_nil, List.nodup_nil⟩
  | step op hs ih => exact InvB_applyOp _ op ih

/-- C7: in every state reachable from a fresh game through the public
operations (including rejected calls, whose left-behind state is the second
component), the living pieces stand on pairwise distinct squares: the list
of alive positions has no duplicate, so two alive pieces at the same square
are the same piece. -/
theorem c7_at_most_one_alive_per_square (s : GameState) (h : Reachable s) :
    (alivePositions s.board).Nodup ∧
    ∀ p ∈ s.board.alive_pieces, ∀ q ∈ s.board.alive_pieces,
      p.position = q.position → p = q := by
  have hinv := InvB_reachable s h
  exact ⟨hinv.2, List.inj_on_of_nodup_map hinv.2⟩

/-- state after one placement from a fresh game, used by the C7 witness. -/
def sC7w : GameState :=
  applyOp (GameState.fresh PlayerSide.SOUTH)
    (Op.place PlayerSide.SOUTH PieceType.TRIANGLE ⟨0, 0⟩)

/-- witness instantiating C7 on a concrete reachable state. -/
theorem c7_at_most_one_alive_per_square_witness :
    Reachable sC7w ∧ (alivePositions sC7w.board).Nodup :=
  ⟨Reachable.step _ (Reachable.init PlayerSide.SOUTH),
    (c7_at_most_one_alive_per_square sC7w
      (Reachable.step _ (Reachable.init PlayerSide.SOUTH))).1⟩

end SaJin
